import Mathlib

/-!
Verification of the Audience Syndication System's core pipeline against its
specification.  The definitions below are a shallow embedding of the
TypeScript sources:

* `lib/csv-parser.ts` — phone/email normalisation (`normalizePhone`, `normalizeEmail`);
* `lib/deduplication.ts` — the bulk ("append") ingestion engine
  (`deduplicateRecord`, `processIndividualRecords`, `processBatchedRecords`,
  `processRecords`);
* `lib/match-append.ts` — the match-append engine (`findMatchingRecord`,
  `getRecordStatus`, `processRecordWithMatch`);
* the daily cron route — retention lifecycle (`decrementAll`, `expireAll`);
* `lib/meta-api.ts` — hashing/formatting and the batched, retried upload
  (`formatAudienceData`, `uploadToCustomerList`, `isRateLimitError`).

The persistence layer is modelled as an in-memory list of rows plus a
serial-id counter; `prisma.findFirst` becomes `List.find?`, `update` a
map over the list, `create`/`createMany` appends.  JavaScript string
truthiness, `===` comparison and Prisma's case-insensitive `equals` are
modelled explicitly.  SHA-256 (Node's `crypto`, an external library) is kept
as a parameter `hash : String → String`.
-/

/-! ## JavaScript / Prisma string primitives -/

/-- `s.toLowerCase()` (ASCII case folding, as used on emails and names). -/
def jsLower (s : String) : String := String.mk (s.data.map Char.toLower)

/-- A character `trim()` removes. -/
def isWS (c : Char) : Bool := c = ' ' || c = '\t' || c = '\n' || c = '\r'

/-- `s.trim()`. -/
def jsTrim (s : String) : String :=
  String.mk (((s.data.dropWhile isWS).reverse.dropWhile isWS).reverse)

/-- JavaScript truthiness of a nullable string: `null` and `""` are falsy. -/
def jsTruthy : Option String → Bool
  | none => false
  | some s => !(s == "")

/-- Prisma `equals … mode: 'insensitive'` on two present strings. -/
def iEq (a b : String) : Bool := jsLower a == jsLower b

/-- Prisma `equals x, mode: 'insensitive'` against a nullable column:
a `NULL` column never equals a string. -/
def optInsEq (col : Option String) (x : String) : Bool :=
  match col with
  | some v => iEq v x
  | none => false

/-- Prisma case-sensitive `equals x` against a nullable column (used for phones). -/
def optExactEq (col : Option String) (x : String) : Bool := col == some x

/-- `phone.replace(/\D/g, '')` from `lib/csv-parser.ts` (`normalizePhone`). -/
def normalizePhone (phone : String) : String :=
  String.mk (phone.data.filter Char.isDigit)

/-- `email.trim().toLowerCase()` from `lib/csv-parser.ts` (`normalizeEmail`). -/
def normalizeEmail (email : String) : String := jsLower (jsTrim email)

/-! ## Data model -/

/-- A parsed CSV row (`ParsedRecord` in `lib/csv-parser.ts`): names are plain
strings (possibly empty), email/phone are nullable. -/
structure ParsedRecord where
  firstName : String
  lastName : String
  email : Option String
  phone : Option String
deriving DecidableEq, Repr

/-- A persisted `audience_members` row.  All text columns are nullable in the
schema; timestamps are abstracted to naturals. -/
structure Member where
  id : Nat
  email : Option String
  phone : Option String
  firstName : Option String
  lastName : Option String
  status : String
  daysRemaining : Int
  dateAdded : Nat
  updatedAt : Nat
  sourceFile : Option String
deriving DecidableEq, Repr

/-- The persisted store for one tenant: the rows plus the next serial id. -/
structure St where
  members : List Member
  nextId : Nat
deriving DecidableEq, Repr

/-- `AUDIENCE_STATUS.ACTIVE` (the literal `'ACTIVE'` used for the `status`
column throughout the API routes). -/
def STATUS_ACTIVE : String := "ACTIVE"

/-- `AUDIENCE_STATUS.NO_IDENTIFIER` (the literal `'NO_IDENTIFIER'` used for
the `status` column throughout the API routes). -/
def STATUS_NO_IDENTIFIER : String := "NO_IDENTIFIER"

/-- Modelled from the spec: the `status` column default that the persistence
layer applies when the bulk engine's `create`/`createMany` calls omit
`status` (the Prisma schema file is not among the sources; no migration adds
the column).  A column default is a single constant; the spec's invariant
"`status = ACTIVE` iff an identifier is present" forces `ACTIVE` for the
common identifier-bearing rows, so the constant is modelled as `ACTIVE`. -/
def STATUS_DEFAULT : String := "ACTIVE"

/-- `DAYS_REMAINING_DEFAULT = 30` (both engines). -/
def DAYS_REMAINING_DEFAULT : Int := 30

/-- `BATCH_SIZE = 100` (`lib/deduplication.ts`). -/
def DEDUP_BATCH_SIZE : Nat := 100

/-! ## Matching predicates (the Prisma `where` clauses) -/

/-- The email + first-name + last-name `where` clause (strategy 1 in both
engines): all three compared case-insensitively. -/
def emailNameWhere (r : ParsedRecord) (m : Member) : Bool :=
  (match r.email with
   | some e => optInsEq m.email e
   | none => false)
  && optInsEq m.firstName r.firstName
  && optInsEq m.lastName r.lastName

/-- The phone + first-name + last-name `where` clause (strategy 2 in both
engines): phone exact, names case-insensitive. -/
def phoneNameWhere (r : ParsedRecord) (m : Member) : Bool :=
  (match r.phone with
   | some p => optExactEq m.phone p
   | none => false)
  && optInsEq m.firstName r.firstName
  && optInsEq m.lastName r.lastName

/-- The email-alone `where` clause (strategy 3, match-append engine only). -/
def emailWhere (r : ParsedRecord) (m : Member) : Bool :=
  match r.email with
  | some e => optInsEq m.email e
  | none => false

/-- The phone-alone `where` clause (strategy 4, match-append engine only). -/
def phoneWhere (r : ParsedRecord) (m : Member) : Bool :=
  match r.phone with
  | some p => optExactEq m.phone p
  | none => false

/-! ## Bulk ("append") ingestion engine — `lib/deduplication.ts` -/

/-- Result of `deduplicateRecord`. -/
structure DeduplicationResult where
  isNew : Bool
  audienceMemberId : Option Nat
  matchedOn : Option String
deriving DecidableEq, Repr

/-- `deduplicateRecord`: STEP 1 email+name (guarded by `record.email` being
truthy), STEP 2 phone+name (guarded by `record.phone`), STEP 3 no match. -/
def deduplicateRecord (r : ParsedRecord) (members : List Member) : DeduplicationResult :=
  match (if jsTruthy r.email then members.find? (emailNameWhere r) else none) with
  | some m => ⟨false, some m.id, some "email+name"⟩
  | none =>
    match (if jsTruthy r.phone then members.find? (phoneNameWhere r) else none) with
    | some m => ⟨false, some m.id, some "phone+name"⟩
    | none => ⟨true, none, none⟩

/-- The row the bulk engine `create`s for a new record: note that no `status`
is passed, so the column takes the schema default. -/
def bulkCreateRow (r : ParsedRecord) (id today : Nat) (sourceFile : Option String) : Member :=
  { id := id
    email := r.email
    phone := r.phone
    firstName := some r.firstName
    lastName := some r.lastName
    status := STATUS_DEFAULT
    daysRemaining := DAYS_REMAINING_DEFAULT
    dateAdded := today
    updatedAt := today
    sourceFile := sourceFile }

/-- Append a freshly created row to the store (`prisma.audienceMember.create`). -/
def bulkCreate (st : St) (r : ParsedRecord) (today : Nat) (sourceFile : Option String) : St :=
  { members := st.members ++ [bulkCreateRow r st.nextId today sourceFile]
    nextId := st.nextId + 1 }

/-- The unconditional overwrite the bulk engine applies to a matched record:
email/phone/names are replaced by the row's values (possibly `null`),
`daysRemaining` is reset, `updatedAt` refreshed; `status` and `dateAdded`
are not touched. -/
def bulkOverwrite (r : ParsedRecord) (today : Nat) (m : Member) : Member :=
  { m with
    daysRemaining := DAYS_REMAINING_DEFAULT
    email := r.email
    phone := r.phone
    firstName := some r.firstName
    lastName := some r.lastName
    updatedAt := today }

/-- `prisma.audienceMember.update` keyed by id, with the overwrite data. -/
def bulkUpdate (members : List Member) (targetId : Nat) (r : ParsedRecord) (today : Nat) :
    List Member :=
  members.map (fun x => if x.id == targetId then bulkOverwrite r today x else x)

/-- `ProcessingResult` of the bulk engine. -/
structure ProcessingResult where
  newRecords : Nat
  duplicates : Nat
  updated : Nat
  errors : List String
deriving DecidableEq, Repr

/-- One loop iteration of `processIndividualRecords`: dedupe against the
current store, then either create or update and bump the counters. -/
def indivStep (today : Nat) (sourceFile : Option String)
    (acc : ProcessingResult × St) (r : ParsedRecord) : ProcessingResult × St :=
  let res := acc.1
  let st := acc.2
  let d := deduplicateRecord r st.members
  if d.isNew then
    ({ res with newRecords := res.newRecords + 1 }, bulkCreate st r today sourceFile)
  else
    ({ res with updated := res.updated + 1, duplicates := res.duplicates + 1 },
     { st with members := bulkUpdate st.members (d.audienceMemberId.getD 0) r today })

/-- `processIndividualRecords`: strictly sequential row-by-row processing,
each row committed before the next. -/
def processIndividualRecords (records : List ParsedRecord) (st : St)
    (today : Nat) (sourceFile : Option String) : ProcessingResult × St :=
  records.foldl (indivStep today sourceFile) (⟨0, 0, 0, []⟩, st)

/-- The classification pass of `processBatchedRecords`: every row is deduped
against the *initial* store and pushed onto the `newRecords` or
`updateRecords` list. -/
def classifyRecords (records : List ParsedRecord) (initial : List Member) :
    List ParsedRecord × List (ParsedRecord × Nat) :=
  records.foldl
    (fun acc r =>
      let d := deduplicateRecord r initial
      if d.isNew then (acc.1 ++ [r], acc.2)
      else (acc.1, acc.2 ++ [(r, d.audienceMemberId.getD 0)]))
    ([], [])

/-- `prisma.audienceMember.createMany` with `skipDuplicates`: the
`audience_members` table has no unique constraint besides the serial primary
key (see `prisma/migrations/0001_init`), so every row is inserted, each
receiving the next serial id. -/
def createMany (st : St) (rows : List ParsedRecord) (today : Nat)
    (sourceFile : Option String) : St :=
  rows.foldl (fun acc r => bulkCreate acc r today sourceFile) st

/-- Fixed-size chunking (`slice(i, i + BATCH_SIZE)` loops), by structural
recursion on a fuel bounded by the list length. -/
def chunksAux (n : Nat) : Nat → List α → List (List α)
  | 0, _ => []
  | _, [] => []
  | fuel + 1, x :: xs => ((x :: xs).take n) :: chunksAux n fuel ((x :: xs).drop n)

/-- All fixed-size chunks of a list, in order. -/
def chunksOf (n : Nat) (l : List α) : List (List α) := chunksAux n l.length l

/-- Apply one transactional chunk of updates in order. -/
def applyUpdateChunk (chunk : List (ParsedRecord × Nat)) (today : Nat)
    (members : List Member) : List Member :=
  chunk.foldl (fun ms u => bulkUpdate ms u.2 u.1 today) members

/-- `processBatchedRecords`: classify everything against the initial store,
bulk-insert the new rows, then apply the updates in transactional chunks of
`BATCH_SIZE`, counting per chunk. -/
def processBatchedRecords (records : List ParsedRecord) (st : St)
    (today : Nat) (sourceFile : Option String) : ProcessingResult × St :=
  let cls := classifyRecords records st.members
  let st1 := createMany st cls.1 today sourceFile
  let afterInsert : ProcessingResult := ⟨cls.1.length, 0, 0, []⟩
  (chunksOf DEDUP_BATCH_SIZE cls.2).foldl
    (fun acc chunk =>
      ({ acc.1 with
          updated := acc.1.updated + chunk.length
          duplicates := acc.1.duplicates + chunk.length },
       { acc.2 with members := applyUpdateChunk chunk today acc.2.members }))
    (afterInsert, st1)

/-- `processRecords`: the volume-based strategy switch
(`records.length > BATCH_SIZE` selects the batched path). -/
def processRecords (records : List ParsedRecord) (st : St)
    (today : Nat) (sourceFile : Option String) : ProcessingResult × St :=
  if records.length > DEDUP_BATCH_SIZE then
    processBatchedRecords records st today sourceFile
  else
    processIndividualRecords records st today sourceFile

/-! ## Match-append engine — `lib/match-append.ts` -/

/-- `findMatchingRecord`: the four progressive strategies, each guarded by
the truthiness of the row fields it uses, first match wins. -/
def findMatchingRecord (r : ParsedRecord) (members : List Member) :
    Option (Member × String) :=
  match (if jsTruthy r.email && !(r.firstName == "") && !(r.lastName == "")
         then members.find? (emailNameWhere r) else none) with
  | some m => some (m, "email+name")
  | none =>
    match (if jsTruthy r.phone && !(r.firstName == "") && !(r.lastName == "")
           then members.find? (phoneNameWhere r) else none) with
    | some m => some (m, "phone+name")
    | none =>
      match (if jsTruthy r.email then members.find? (emailWhere r) else none) with
      | some m => some (m, "email")
      | none =>
        match (if jsTruthy r.phone then members.find? (phoneWhere r) else none) with
        | some m => some (m, "phone")
        | none => none

/-- `getRecordStatus`: `ACTIVE` iff email or phone is truthy with nonblank
trim. -/
def getRecordStatus (email phone : Option String) : String :=
  let hasEmail := jsTruthy email && !(jsTrim (email.getD "") == "")
  let hasPhone := jsTruthy phone && !(jsTrim (phone.getD "") == "")
  if hasEmail || hasPhone then STATUS_ACTIVE else STATUS_NO_IDENTIFIER

/-- Result of `processRecordWithMatch`. -/
structure ProcessRecordResult where
  action : String
  recordId : Nat
  matchedBy : Option String
  fieldsUpdated : Option (List String)
deriving DecidableEq, Repr

/-- `record.email && record.email !== match.email` — the email diff
condition of the match-append update path (`!==` is exact comparison even
though matching was case-insensitive). -/
def emailChangedB (r : ParsedRecord) (m : Member) : Bool :=
  match r.email with
  | some e => !(e == "") && !(m.email == some e)
  | none => false

/-- `record.phone && record.phone !== match.phone`. -/
def phoneChangedB (r : ParsedRecord) (m : Member) : Bool :=
  match r.phone with
  | some p => !(p == "") && !(m.phone == some p)
  | none => false

/-- `record.firstName && record.firstName !== match.firstName`. -/
def fnChangedB (r : ParsedRecord) (m : Member) : Bool :=
  !(r.firstName == "") && !(m.firstName == some r.firstName)

/-- `record.lastName && record.lastName !== match.lastName`. -/
def lnChangedB (r : ParsedRecord) (m : Member) : Bool :=
  !(r.lastName == "") && !(m.lastName == some r.lastName)

/-- `!hadIdentifier && hasIdentifierNow` — the re-enrollment condition
(truthiness of the stored vs incoming identifiers). -/
def reenrollB (r : ParsedRecord) (m : Member) : Bool :=
  !(jsTruthy m.email || jsTruthy m.phone) && (jsTruthy r.email || jsTruthy r.phone)

/-- The field-level diff of the match-append update path: the list of
changed-field names and the updated row. -/
def applyMatchDiff (r : ParsedRecord) (today : Nat) (m : Member) :
    List String × Member :=
  let fields :=
    (if emailChangedB r m then ["email"] else [])
    ++ (if phoneChangedB r m then ["phone"] else [])
    ++ (if fnChangedB r m then ["firstName"] else [])
    ++ (if lnChangedB r m then ["lastName"] else [])
    ++ (if reenrollB r m then ["status"] else [])
  (fields,
   { m with
     updatedAt := today
     email := if emailChangedB r m then r.email else m.email
     phone := if phoneChangedB r m then r.phone else m.phone
     firstName := if fnChangedB r m then some r.firstName else m.firstName
     lastName := if lnChangedB r m then some r.lastName else m.lastName
     status := if reenrollB r m then STATUS_ACTIVE else m.status
     daysRemaining := if reenrollB r m then DAYS_REMAINING_DEFAULT else m.daysRemaining
     dateAdded := if reenrollB r m then today else m.dateAdded })

/-- `processRecordWithMatch`: create on no match; on a match, skip in
`'append'` mode, otherwise apply the field-level diff (writing only when at
least one field changed). -/
def processRecordWithMatch (mode : String) (r : ParsedRecord) (st : St)
    (today : Nat) (sourceFile : Option String) : ProcessRecordResult × St :=
  let status := getRecordStatus r.email r.phone
  match findMatchingRecord r st.members with
  | none =>
    (⟨"created", st.nextId, none, none⟩,
     { members := st.members ++
         [{ id := st.nextId
            email := r.email
            phone := r.phone
            firstName := some r.firstName
            lastName := some r.lastName
            status := status
            daysRemaining := DAYS_REMAINING_DEFAULT
            dateAdded := today
            updatedAt := today
            sourceFile := sourceFile }]
       nextId := st.nextId + 1 })
  | some (m, tag) =>
    if mode == "append" then
      (⟨"skipped", m.id, some tag, none⟩, st)
    else
      let diff := applyMatchDiff r today m
      if diff.1.isEmpty then
        (⟨"skipped", m.id, some tag, some []⟩, st)
      else
        (⟨"updated", m.id, some tag, some diff.1⟩,
         { st with members := st.members.map (fun x => if x.id == m.id then diff.2 else x) })

/-- Counters of `batchProcessWithMatch`. -/
structure BatchProcessResult where
  created : Nat
  updated : Nat
  skipped : Nat
  noIdentifier : Nat
  errors : List String
deriving DecidableEq, Repr

/-- `batchProcessWithMatch`: the per-row loop with its counters (the
`noIdentifier` counter re-derives the status from the row). -/
def batchProcessWithMatch (mode : String) (records : List ParsedRecord) (st : St)
    (today : Nat) (sourceFile : Option String) : BatchProcessResult × St :=
  records.foldl
    (fun acc r =>
      let (pr, st2) := processRecordWithMatch mode r acc.2 today sourceFile
      let b := acc.1
      let b := if pr.action == "created" then { b with created := b.created + 1 }
               else if pr.action == "updated" then { b with updated := b.updated + 1 }
               else { b with skipped := b.skipped + 1 }
      let b := if getRecordStatus r.email r.phone == STATUS_NO_IDENTIFIER then
                 { b with noIdentifier := b.noIdentifier + 1 }
               else b
      (b, st2))
    (⟨0, 0, 0, 0, []⟩, st)

/-! ## Lifecycle — daily cron, steps 1 and 2 -/

/-- Step 1, `updateMany where daysRemaining > 0, decrement 1`. -/
def decrementAll (members : List Member) : List Member :=
  members.map (fun m =>
    if m.daysRemaining > 0 then { m with daysRemaining := m.daysRemaining - 1 } else m)

/-- Step 2, `deleteMany where daysRemaining <= 0`; returns the surviving rows
and the deleted count. -/
def expireAll (members : List Member) : List Member × Nat :=
  (members.filter (fun m => !(m.daysRemaining ≤ 0)),
   members.countP (fun m => m.daysRemaining ≤ 0))

/-! ## Sync engine — `lib/meta-api.ts` -/

/-- A formatted, hashed upload row; each field present only when the source
field was truthy. -/
structure FormattedRecord where
  EMAIL : Option String
  PHONE : Option String
  FN : Option String
  LN : Option String
deriving DecidableEq, Repr

/-- `normalizeAndHashEmail`: lowercase, trim, hash.  The one-way hash
(Node `crypto` SHA-256) is an external library, kept as a parameter. -/
def normalizeAndHashEmail (hash : String → String) (email : String) : String :=
  hash (jsTrim (jsLower email))

/-- `normalizeAndHashPhone`: digits only, drop a leading `1` when exactly 11
digits remain, hash. -/
def normalizeAndHashPhone (hash : String → String) (phone : String) : String :=
  let digitsOnly := phone.data.filter Char.isDigit
  let normalized :=
    if digitsOnly.length == 11 && digitsOnly.take 1 == ['1']
    then digitsOnly.drop 1
    else digitsOnly
  hash (String.mk normalized)

/-- `normalizeAndHashName`: lowercase, trim, hash. -/
def normalizeAndHashName (hash : String → String) (name : String) : String :=
  hash (jsTrim (jsLower name))

/-- `AudienceMember` as consumed by `formatAudienceData` (the cron substitutes
`''` for null names before calling it). -/
structure AudienceMemberInput where
  email : Option String
  phone : Option String
  firstName : String
  lastName : String
deriving DecidableEq, Repr

/-- The formatted row built for one member that passed the identifier check. -/
def formatOne (hash : String → String) (m : AudienceMemberInput) : FormattedRecord :=
  { EMAIL := match m.email with
      | some e => if !(e == "") then some (normalizeAndHashEmail hash e) else none
      | none => none
    PHONE := match m.phone with
      | some p => if !(p == "") then some (normalizeAndHashPhone hash p) else none
      | none => none
    FN := if !(m.firstName == "") then some (normalizeAndHashName hash m.firstName) else none
    LN := if !(m.lastName == "") then some (normalizeAndHashName hash m.lastName) else none }

/-- `formatAudienceData`: skip members whose email and phone are both falsy,
hash the rest field-by-field. -/
def formatAudienceData (hash : String → String) :
    List AudienceMemberInput → List FormattedRecord
  | [] => []
  | m :: rest =>
    if !(jsTruthy m.email) && !(jsTruthy m.phone) then formatAudienceData hash rest
    else formatOne hash m :: formatAudienceData hash rest

/-- A remote failure as seen by the upload loop: a JS `Error` whose message
carries the SDK detail, optionally with a numeric `code` (the shape
`isRateLimitError` inspects). -/
structure MetaError where
  message : String
  code : Option Int
deriving DecidableEq, Repr

/-- Substring test on character lists (JS `String.includes`). -/
def containsSub (hay pat : List Char) : Bool :=
  match hay with
  | [] => pat.isPrefixOf ([] : List Char)
  | _ :: t => pat.isPrefixOf hay || containsSub t pat

/-- `isRateLimitError`: message substrings `'rate limit'` / `'too many
calls'` (lower-cased) or Facebook codes 17 / 4. -/
def isRateLimitError (e : MetaError) : Bool :=
  containsSub (jsLower e.message).data "rate limit".data
  || containsSub (jsLower e.message).data "too many calls".data
  || e.code == some 17
  || e.code == some 4

/-- `formatMetaError` on an `Error`-shaped failure: none of the SDK-specific
wrapper fields (`_error`, `response`, `body`, `error_user_msg`) exist on it,
so the function falls through to the plain `message` branch. -/
def formatMetaError (e : MetaError) : String := e.message

/-- `BATCH_SIZE = 1000` (`lib/meta-api.ts`). -/
def META_BATCH_SIZE : Nat := 1000

/-- `MAX_RETRIES = 3`. -/
def MAX_RETRIES : Nat := 3

/-- `INITIAL_BACKOFF_MS = 1000`. -/
def INITIAL_BACKOFF_MS : Nat := 1000

/-- What the remote does on the k-th attempt (1-based) for batch number b
(1-based): `none` is success, `some e` a failure. -/
def RemoteBehavior := Nat → Nat → Option MetaError

/-- Observable trace of an upload run: records handed to the remote, the
thrown error message if any, each `uploadBatch` call made, and each backoff
delay slept. -/
structure UploadTrace where
  uploaded : Nat
  error : Option String
  attempts : List (Nat × Nat)
  sleeps : List Nat
deriving DecidableEq, Repr

/-- The retry loop for one batch (`for attempt = 1..MAX_RETRIES`): on a
rate-limit failure before the last attempt, sleep `INITIAL_BACKOFF_MS *
2^(attempt-1)` and retry; on a non-rate-limit failure, or on any failure of
the last attempt, stop with that failure as `lastError`; the fuel counts the
attempts still allowed (initially `MAX_RETRIES`). -/
def attemptBatch (remote : RemoteBehavior) (b : Nat) :
    Nat → Nat → Option MetaError × List (Nat × Nat) × List Nat
  | _, 0 => (none, [], [])
  | attempt, fuel + 1 =>
    match remote b attempt with
    | none => (none, [(b, attempt)], [])
    | some e =>
      if fuel == 0 then (some e, [(b, attempt)], [])
      else if isRateLimitError e then
        let rest := attemptBatch remote b (attempt + 1) fuel
        (rest.1, (b, attempt) :: rest.2.1,
         (INITIAL_BACKOFF_MS * 2 ^ (attempt - 1)) :: rest.2.2)
      else (some e, [(b, attempt)], [])

/-- The sequential batch loop: a failed batch throws
`Failed to upload batch {n}: {formatted}` and later batches are never
attempted; a successful batch adds its length to the uploaded count. -/
def uploadBatches (remote : RemoteBehavior) : Nat → List (List FormattedRecord) → UploadTrace
  | _, [] => ⟨0, none, [], []⟩
  | bNum, batch :: rest =>
    let att := attemptBatch remote bNum 1 MAX_RETRIES
    match att.1 with
    | none =>
      let tail := uploadBatches remote (bNum + 1) rest
      ⟨batch.length + tail.uploaded, tail.error, att.2.1 ++ tail.attempts,
       att.2.2 ++ tail.sleeps⟩
    | some e =>
      ⟨0, some ("Failed to upload batch " ++ toString bNum ++ ": " ++ formatMetaError e),
       att.2.1, att.2.2⟩

/-- `uploadToCustomerList`: empty data is a successful no-op, otherwise the
data is chunked into batches of `BATCH_SIZE` and uploaded sequentially. -/
def uploadToCustomerList (remote : RemoteBehavior) (data : List FormattedRecord) : UploadTrace :=
  if data.length == 0 then ⟨0, none, [], []⟩
  else uploadBatches remote 1 (chunksOf META_BATCH_SIZE data)

/-! ## The spec's status invariant -/

/-- "email or phone is present and non-blank" (the spec's condition, which is
exactly the condition `getRecordStatus` tests). -/
def hasNonBlankIdentifier (m : Member) : Bool :=
  (jsTruthy m.email && !(jsTrim (m.email.getD "") == ""))
  || (jsTruthy m.phone && !(jsTrim (m.phone.getD "") == ""))

/-- The spec's invariant on one row: `status = ACTIVE` iff an identifier is
present and non-blank. -/
def statusInvariant (m : Member) : Bool :=
  (m.status == STATUS_ACTIVE) == hasNonBlankIdentifier m

/-! ## Helper lemmas -/

theorem iEq_refl (a : String) : iEq a a = true := by simp [iEq]

theorem jsLower_eq_empty {s : String} (h : jsLower s = "") : s = "" := by
  cases s with
  | mk data =>
    cases data with
    | nil => rfl
    | cons c cs =>
      exfalso
      have hd : (jsLower (String.mk (c :: cs))).data = ("" : String).data := by rw [h]
      simp [jsLower] at hd

theorem optInsEq_jsTruthy {col : Option String} {x : String}
    (h : optInsEq col x = true) (hx : x ≠ "") : jsTruthy col = true := by
  cases col with
  | none => simp [optInsEq] at h
  | some v =>
    simp only [jsTruthy, Bool.not_eq_eq_eq_not, Bool.not_true, beq_eq_false_iff_ne, ne_eq]
    intro hv
    apply hx
    subst hv
    simp only [optInsEq, iEq, beq_iff_eq] at h
    exact jsLower_eq_empty h.symm

theorem optExactEq_jsTruthy {col : Option String} {x : String}
    (h : optExactEq col x = true) (hx : x ≠ "") : jsTruthy col = true := by
  simp only [optExactEq, beq_iff_eq] at h
  subst h
  simpa [jsTruthy] using hx

theorem find?_eq_none_of_all {p : Member → Bool} {l : List Member}
    (h : ∀ m ∈ l, p m = false) : l.find? p = none := by
  rw [List.find?_eq_none]
  intro m hm
  simp [h m hm]

theorem find?_mem_of_exists {p : Member → Bool} {l : List Member}
    (h : ∃ m ∈ l, p m = true) : ∃ m, l.find? p = some m ∧ p m = true ∧ m ∈ l := by
  cases hf : l.find? p with
  | none =>
    obtain ⟨m, hm, hp⟩ := h
    have := List.find?_eq_none.mp hf m hm
    simp [hp] at this
  | some m =>
    exact ⟨m, rfl, List.find?_some hf, List.mem_of_find?_eq_some hf⟩

theorem mem_of_mem_chunksAux {n fuel : Nat} {l b : List α} {x : α}
    (hb : b ∈ chunksAux n fuel l) (hx : x ∈ b) : x ∈ l := by
  induction fuel generalizing l with
  | zero => simp [chunksAux] at hb
  | succ fuel ih =>
    cases l with
    | nil => simp [chunksAux] at hb
    | cons y ys =>
      simp only [chunksAux, List.mem_cons] at hb
      rcases hb with hb | hb
      · subst hb
        exact List.mem_of_mem_take hx
      · exact List.mem_of_mem_drop (ih hb)

/-! ## C5 — lifecycle exactness -/

/-- C5: `decrementAll` decrements `remainingDays` by exactly 1 for every
record with `remainingDays > 0` and leaves records at 0 or below (and every
other field) untouched; `expireAll` then deletes exactly the records with
`remainingDays <= 0` and no others, returning the count deleted; a record at
1 before the tick is at 0 after `decrementAll` and gone after `expireAll`. -/
theorem C5_lifecycle_exactness (s : List Member) :
    (decrementAll s).length = s.length
    ∧ (∀ i : Nat, (decrementAll s)[i]? = (s[i]?).map (fun m =>
        if 0 < m.daysRemaining then { m with daysRemaining := m.daysRemaining - 1 } else m))
    ∧ (∀ m ∈ (expireAll s).1, 0 < m.daysRemaining)
    ∧ (∀ m ∈ s, 0 < m.daysRemaining → m ∈ (expireAll s).1)
    ∧ (expireAll s).2 + (expireAll s).1.length = s.length
    ∧ (∀ m ∈ s, m.daysRemaining = 1 →
        { m with daysRemaining := 0 } ∈ decrementAll s
        ∧ { m with daysRemaining := 0 } ∉ (expireAll (decrementAll s)).1) := by
  refine ⟨by simp [decrementAll], ?_, ?_, ?_, ?_, ?_⟩
  · intro i
    simp [decrementAll, List.getElem?_map]
  · intro m hm
    simp only [expireAll, List.mem_filter] at hm
    simpa using hm.2
  · intro m hm hpos
    simp only [expireAll, List.mem_filter]
    exact ⟨hm, by simpa using hpos⟩
  · simp only [expireAll]
    rw [List.countP_eq_length_filter]
    induction s with
    | nil => simp
    | cons x xs ih =>
      by_cases hx : x.daysRemaining ≤ 0 <;>
        simp [List.filter_cons, hx, ih] <;> omega
  · intro m hm h1
    constructor
    · have : m ∈ s ∧ (fun m =>
          if 0 < m.daysRemaining then { m with daysRemaining := m.daysRemaining - 1 } else m) m
          = { m with daysRemaining := 0 } := ⟨hm, by simp [h1]⟩
      simpa [decrementAll, List.mem_map] using ⟨m, hm, by simp [h1]⟩
    · intro hcontra
      simp only [expireAll, List.mem_filter] at hcontra
      simp at hcontra

/-- A concrete store row for the C5 witness. -/
def c5row (d : Int) : Member :=
  ⟨7, some "a@x.com", none, some "A", some "B", "ACTIVE", d, 3, 3, none⟩

/-- Witness for C5 at a concrete store. -/
theorem C5_witness :
    c5row 0 ∈ decrementAll [c5row 1]
    ∧ c5row 0 ∉ (expireAll (decrementAll [c5row 1])).1 := by
  have h := (C5_lifecycle_exactness [c5row 1]).2.2.2.2.2 (c5row 1) (by simp) rfl
  exact h

/-! ## C7 — sync exclusion invariant -/

/-- C7: the formatted output contains exactly one record per input member
that has a truthy email or phone (in input order), members lacking both are
dropped before batching, and consequently every record in every batch of the
chunked upload carries a hashed `EMAIL` or a hashed `PHONE`. -/
theorem C7_sync_exclusion (hash : String → String) (ms : List AudienceMemberInput) :
    formatAudienceData hash ms
      = (ms.filter (fun m => jsTruthy m.email || jsTruthy m.phone)).map (formatOne hash)
    ∧ (∀ rec ∈ formatAudienceData hash ms, rec.EMAIL ≠ none ∨ rec.PHONE ≠ none)
    ∧ (∀ batch ∈ chunksOf META_BATCH_SIZE (formatAudienceData hash ms),
        ∀ rec ∈ batch, rec.EMAIL ≠ none ∨ rec.PHONE ≠ none) := by
  have hfilter : formatAudienceData hash ms
      = (ms.filter (fun m => jsTruthy m.email || jsTruthy m.phone)).map (formatOne hash) := by
    induction ms with
    | nil => rfl
    | cons m rest ih =>
      by_cases he : jsTruthy m.email
      · simp [formatAudienceData, List.filter_cons, he, ih]
      · by_cases hp : jsTruthy m.phone
        · simp [formatAudienceData, List.filter_cons, he, hp, ih]
        · simp [formatAudienceData, List.filter_cons, he, hp, ih]
  have hall : ∀ rec ∈ formatAudienceData hash ms, rec.EMAIL ≠ none ∨ rec.PHONE ≠ none := by
    intro rec hrec
    rw [hfilter] at hrec
    obtain ⟨m, hm, hrec⟩ := List.mem_map.mp hrec
    have hid : jsTruthy m.email || jsTruthy m.phone := (List.mem_filter.mp hm).2
    subst hrec
    rcases Bool.or_eq_true_iff.mp hid with he | hp
    · left
      cases hme : m.email with
      | none => simp [jsTruthy, hme] at he
      | some e =>
        rw [hme] at he
        simp only [jsTruthy] at he
        simp [formatOne, hme, he]
    · right
      cases hmp : m.phone with
      | none => simp [jsTruthy, hmp] at hp
      | some p =>
        rw [hmp] at hp
        simp only [jsTruthy] at hp
        simp [formatOne, hmp, hp]
  refine ⟨hfilter, hall, ?_⟩
  intro batch hbatch rec hrec
  exact hall rec (mem_of_mem_chunksAux hbatch hrec)

/-- Witness for C7: a member with only an email, one with only a phone, one
with neither. -/
theorem C7_witness :
    formatAudienceData (fun s => s) [⟨some "a@x.com", none, "A", "B"⟩,
        ⟨none, some "555", "C", "D"⟩, ⟨none, none, "E", "F"⟩]
      = [formatOne (fun s => s) ⟨some "a@x.com", none, "A", "B"⟩,
         formatOne (fun s => s) ⟨none, some "555", "C", "D"⟩]
    ∧ (∀ rec ∈ formatAudienceData (fun s => s) [⟨some "a@x.com", none, "A", "B"⟩,
        ⟨none, some "555", "C", "D"⟩, ⟨none, none, "E", "F"⟩],
        rec.EMAIL ≠ none ∨ rec.PHONE ≠ none) := by
  constructor
  · have h := (C7_sync_exclusion (fun s => s) [⟨some "a@x.com", none, "A", "B"⟩,
      ⟨none, some "555", "C", "D"⟩, ⟨none, none, "E", "F"⟩]).1
    rw [h]
    decide
  · exact (C7_sync_exclusion (fun s => s) [⟨some "a@x.com", none, "A", "B"⟩,
      ⟨none, some "555", "C", "D"⟩, ⟨none, none, "E", "F"⟩]).2.1

/-! ## C10 — sync phone normalisation strips the US country code -/

/-- The claim's description of the Sync Engine's phone normalisation: the
digits-only form of the phone, except that an 11-digit form starting with
`1` loses the leading `1`. -/
def claimedSyncPhoneForm (phone : String) : String :=
  let d := normalizePhone phone
  if d.data.length = 11 ∧ d.data.take 1 = ['1'] then String.mk (d.data.drop 1) else d

/-- C10: the hashed `PHONE` equals the hash of the digits-only phone with an
11-digit leading `1` stripped; hence `'15551234567'` and `'5551234567'` hash
identically, while the reconciliation-side `normalizePhone` keeps the full
11-digit form. -/
theorem C10_sync_phone_normalization (hash : String → String) :
    (∀ p : String, normalizeAndHashPhone hash p = hash (claimedSyncPhoneForm p))
    ∧ normalizeAndHashPhone hash "15551234567" = normalizeAndHashPhone hash "5551234567"
    ∧ normalizeAndHashPhone hash "15551234567" = hash "5551234567"
    ∧ normalizePhone "15551234567" = "15551234567" := by
  refine ⟨?_, ?_, ?_, by decide⟩
  · intro p
    unfold normalizeAndHashPhone claimedSyncPhoneForm normalizePhone
    by_cases h1 : (p.data.filter Char.isDigit).length = 11
    · by_cases h2 : (p.data.filter Char.isDigit).take 1 = ['1']
      · simp [h1, h2]
      · simp [h1, h2]
    · simp [h1]
  · show hash _ = hash _
    rfl
  · show hash _ = hash _
    congr 1

/-! ## Matcher cascade helpers -/

theorem guardedFind_eq_some {g : Bool} {p : Member → Bool} {s : List Member} {m : Member}
    (h : (if g then s.find? p else none) = some m) : g = true ∧ p m = true ∧ m ∈ s := by
  cases g with
  | false => simp at h
  | true =>
    simp only [if_true] at h
    exact ⟨rfl, List.find?_some h, List.mem_of_find?_eq_some h⟩

theorem emailNameWhere_email {r : ParsedRecord} {m : Member} {e : String}
    (he : r.email = some e) (h : emailNameWhere r m = true) : optInsEq m.email e = true := by
  simp only [emailNameWhere, he, Bool.and_eq_true] at h
  exact h.1.1

theorem phoneNameWhere_phone {r : ParsedRecord} {m : Member} {p : String}
    (hp : r.phone = some p) (h : phoneNameWhere r m = true) : optExactEq m.phone p = true := by
  simp only [phoneNameWhere, hp, Bool.and_eq_true] at h
  exact h.1.1

theorem jsTruthy_some {o : Option String} (h : jsTruthy o = true) :
    ∃ v, o = some v ∧ v ≠ "" := by
  cases o with
  | none => simp [jsTruthy] at h
  | some v =>
    refine ⟨v, rfl, ?_⟩
    simpa [jsTruthy] using h

/-! ## C1 — mode asymmetry of the Identity Matcher -/

/-- Counterexample to C1 as stated: in append (bulk) mode, a contact whose
email equals an existing record's email while its name differs from every
stored record with that email is *not* always classified as new — it can
still be matched by the phone+name strategy.  Concretely, the contact below
email-matches record 1 (names differ) yet is matched to record 2 via
phone+name. -/
theorem C1_counterexample :
    (emailWhere ⟨"John", "Doe", some "a@x.com", some "5551234567"⟩
        ⟨1, some "a@x.com", some "999", some "Jane", some "Roe", "ACTIVE", 30, 0, 0, none⟩) = true
    ∧ (∀ m ∈ [(⟨1, some "a@x.com", some "999", some "Jane", some "Roe", "ACTIVE", 30, 0, 0,
          none⟩ : Member),
         ⟨2, some "b@y.com", some "5551234567", some "John", some "Doe", "ACTIVE", 30, 0, 0,
          none⟩],
        emailWhere ⟨"John", "Doe", some "a@x.com", some "5551234567"⟩ m = true →
        (optInsEq m.firstName "John" && optInsEq m.lastName "Doe") = false)
    ∧ (deduplicateRecord ⟨"John", "Doe", some "a@x.com", some "5551234567"⟩
        [⟨1, some "a@x.com", some "999", some "Jane", some "Roe", "ACTIVE", 30, 0, 0, none⟩,
         ⟨2, some "b@y.com", some "5551234567", some "John", some "Doe", "ACTIVE", 30, 0, 0,
          none⟩]).isNew = false
    ∧ (deduplicateRecord ⟨"John", "Doe", some "a@x.com", some "5551234567"⟩
        [⟨1, some "a@x.com", some "999", some "Jane", some "Roe", "ACTIVE", 30, 0, 0, none⟩,
         ⟨2, some "b@y.com", some "5551234567", some "John", some "Doe", "ACTIVE", 30, 0, 0,
          none⟩]).matchedOn = some "phone+name" := by
  decide

/-- C1 (amended): in append (bulk) mode only the email+name and phone+name
strategies are tried — the result's strategy tag is never an email-alone or
phone-alone tag — and a contact matching neither of those two strategies is
classified as new; hence an email-equal, name-different contact is new
*provided the phone+name strategy also finds no match*.  In match-append
mode, by contrast, a contact with a stored email-equal record always finds a
match (via the email-alone fallback if nothing stricter fires). -/
theorem C1_mode_asymmetry (r : ParsedRecord) (s : List Member) :
    ((deduplicateRecord r s).matchedOn = none
      ∨ (deduplicateRecord r s).matchedOn = some "email+name"
      ∨ (deduplicateRecord r s).matchedOn = some "phone+name")
    ∧ ((∀ m ∈ s, emailNameWhere r m = false) → (∀ m ∈ s, phoneNameWhere r m = false) →
        deduplicateRecord r s = ⟨true, none, none⟩)
    ∧ (∀ e, r.email = some e → e ≠ "" → (∃ m ∈ s, emailWhere r m = true) →
        findMatchingRecord r s ≠ none) := by
  refine ⟨?_, ?_, ?_⟩
  · unfold deduplicateRecord
    cases h1 : (if jsTruthy r.email then s.find? (emailNameWhere r) else none) with
    | some m => simp
    | none =>
      cases h2 : (if jsTruthy r.phone then s.find? (phoneNameWhere r) else none) with
      | some m => simp
      | none => simp
  · intro h1 h2
    have f1 : s.find? (emailNameWhere r) = none := find?_eq_none_of_all h1
    have f2 : s.find? (phoneNameWhere r) = none := find?_eq_none_of_all h2
    unfold deduplicateRecord
    cases jsTruthy r.email <;> cases jsTruthy r.phone <;> simp [f1, f2]
  · intro e he hne hex
    obtain ⟨m3, hf3, hp3, hm3⟩ := find?_mem_of_exists hex
    have htruthy : jsTruthy r.email = true := by simp [jsTruthy, he, hne]
    unfold findMatchingRecord
    cases h1 : (if jsTruthy r.email && !(r.firstName == "") && !(r.lastName == "")
        then s.find? (emailNameWhere r) else none) with
    | some m => simp
    | none =>
      cases h2 : (if jsTruthy r.phone && !(r.firstName == "") && !(r.lastName == "")
          then s.find? (phoneNameWhere r) else none) with
      | some m => simp
      | none => simp [htruthy, hf3]

/-- Witness for C1 (amended): a contact with no phone and an email that
matches a stored record only case-insensitively by email (name differs) is
new in append mode, while match-append matches it. -/
theorem C1_mode_asymmetry_witness :
    deduplicateRecord ⟨"John", "Doe", some "a@x.com", none⟩
        [⟨1, some "a@x.com", none, some "Jane", some "Roe", "ACTIVE", 30, 0, 0, none⟩]
      = ⟨true, none, none⟩
    ∧ findMatchingRecord ⟨"John", "Doe", some "a@x.com", none⟩
        [⟨1, some "a@x.com", none, some "Jane", some "Roe", "ACTIVE", 30, 0, 0, none⟩]
      ≠ none := by
  have h := C1_mode_asymmetry ⟨"John", "Doe", some "a@x.com", none⟩
    [⟨1, some "a@x.com", none, some "Jane", some "Roe", "ACTIVE", 30, 0, 0, none⟩]
  refine ⟨h.2.1 ?_ ?_, h.2.2 "a@x.com" rfl (by decide) ?_⟩
  · intro m hm
    simp only [List.mem_singleton] at hm
    subst hm
    decide
  · intro m hm
    simp only [List.mem_singleton] at hm
    subst hm
    decide
  · refine ⟨⟨1, some "a@x.com", none, some "Jane", some "Roe", "ACTIVE", 30, 0, 0, none⟩,
      by simp, by decide⟩

/-! ## C2 — first-match-wins strategy order -/

/-- C2: when a contact has both an email+name match and a phone+name match
against a *different* record, both engines resolve via the email+name
strategy: they return the first record matching the email+name clause, with
strategy tag `email+name`. -/
theorem C2_first_match_wins (r : ParsedRecord) (s : List Member) (a b : Member)
    (ha : a ∈ s) (hea : emailNameWhere r a = true)
    (_hb : b ∈ s) (_hpb : phoneNameWhere r b = true) (_hab : a ≠ b)
    (hemail : jsTruthy r.email = true) (_hphone : jsTruthy r.phone = true)
    (hfn : r.firstName ≠ "") (hln : r.lastName ≠ "") :
    ∃ m, s.find? (emailNameWhere r) = some m ∧ emailNameWhere r m = true ∧
      deduplicateRecord r s = ⟨false, some m.id, some "email+name"⟩ ∧
      findMatchingRecord r s = some (m, "email+name") := by
  obtain ⟨m, hf, hp, hmem⟩ := find?_mem_of_exists ⟨a, ha, hea⟩
  refine ⟨m, hf, hp, ?_, ?_⟩
  · unfold deduplicateRecord
    rw [if_pos hemail, hf]
  · unfold findMatchingRecord
    have hg : (jsTruthy r.email && !(r.firstName == "") && !(r.lastName == "")) = true := by
      simp [hemail, hfn, hln]
    rw [if_pos hg, hf]

/-- Witness for C2: a contact email+name-matching record 1 and
phone+name-matching record 2 resolves to record 1 with tag `email+name` in
both engines. -/
theorem C2_first_match_wins_witness :
    ∃ m : Member,
      List.find? (emailNameWhere ⟨"John", "Doe", some "a@x.com", some "5551234567"⟩)
          [⟨1, some "A@X.COM", some "999", some "john", some "doe", "ACTIVE", 30, 0, 0, none⟩,
           ⟨2, some "b@y.com", some "5551234567", some "John", some "Doe", "ACTIVE", 30, 0, 0,
            none⟩] = some m
      ∧ emailNameWhere ⟨"John", "Doe", some "a@x.com", some "5551234567"⟩ m = true
      ∧ deduplicateRecord ⟨"John", "Doe", some "a@x.com", some "5551234567"⟩
          [⟨1, some "A@X.COM", some "999", some "john", some "doe", "ACTIVE", 30, 0, 0, none⟩,
           ⟨2, some "b@y.com", some "5551234567", some "John", some "Doe", "ACTIVE", 30, 0, 0,
            none⟩] = ⟨false, some m.id, some "email+name"⟩
      ∧ findMatchingRecord ⟨"John", "Doe", some "a@x.com", some "5551234567"⟩
          [⟨1, some "A@X.COM", some "999", some "john", some "doe", "ACTIVE", 30, 0, 0, none⟩,
           ⟨2, some "b@y.com", some "5551234567", some "John", some "Doe", "ACTIVE", 30, 0, 0,
            none⟩] = some (m, "email+name") :=
  C2_first_match_wins ⟨"John", "Doe", some "a@x.com", some "5551234567"⟩
    [⟨1, some "A@X.COM", some "999", some "john", some "doe", "ACTIVE", 30, 0, 0, none⟩,
     ⟨2, some "b@y.com", some "5551234567", some "John", some "Doe", "ACTIVE", 30, 0, 0, none⟩]
    ⟨1, some "A@X.COM", some "999", some "john", some "doe", "ACTIVE", 30, 0, 0, none⟩
    ⟨2, some "b@y.com", some "5551234567", some "John", some "Doe", "ACTIVE", 30, 0, 0, none⟩
    (by simp) (by decide) (by simp) (by decide) (by decide) (by decide) (by decide)
    (by decide) (by decide)

/-! ## C6 — status invariant after reconciliation -/

/-- C6 is a code bug in the bulk path: `processRecords` (row-by-row branch
here, the batched `createMany` shares the same row builder) creates records
without passing `status`, so a name-only contact gets the constant schema
default (modelled `ACTIVE`) instead of a status derived from identifier
presence, violating the invariant; the match-append engine, by contrast,
derives `NO_IDENTIFIER` for the same contact. -/
theorem C6_bulk_create_status_bug :
    (processRecords [⟨"John", "Doe", none, none⟩] ⟨[], 1⟩ 0 (some "list.csv")).2.members.map
        Member.status = [STATUS_DEFAULT]
    ∧ ((processRecords [⟨"John", "Doe", none, none⟩] ⟨[], 1⟩ 0 (some "list.csv")).2.members.all
        statusInvariant) = false
    ∧ ((processRecordWithMatch "update" ⟨"John", "Doe", none, none⟩ ⟨[], 1⟩ 0
        (some "list.csv")).2.members.all statusInvariant) = true
    ∧ (processRecordWithMatch "update" ⟨"John", "Doe", none, none⟩ ⟨[], 1⟩ 0
        (some "list.csv")).2.members.map Member.status = [STATUS_NO_IDENTIFIER] := by
  decide

/-! ## C9 — re-enrollment invariant -/

/-- Counterexample to C9 as stated: a persisted `NO_IDENTIFIER` record whose
phone is the whitespace string `" "` (POST-able through the audience PATCH
route, whose zod schema constrains only emails) *can* be matched — here by a
row supplying a genuine email — and the result keeps `status =
NO_IDENTIFIER`, keeps `remainingDays = 5` and keeps `dateAdded = 100`
(processing time is 200), because the re-enrollment branch tests JS
truthiness of the stored identifiers, not trimmed blankness. -/
theorem C9_counterexample :
    (⟨1, none, some " ", some "John", some "Doe", "NO_IDENTIFIER", 5, 100, 100,
        none⟩ : Member).status = STATUS_NO_IDENTIFIER
    ∧ jsTruthy (some "john@x.com") = true
    ∧ (processRecordWithMatch "update" ⟨"John", "Doe", some "john@x.com", some " "⟩
        ⟨[⟨1, none, some " ", some "John", some "Doe", "NO_IDENTIFIER", 5, 100, 100, none⟩], 2⟩
        200 none).1.action = "updated"
    ∧ (processRecordWithMatch "update" ⟨"John", "Doe", some "john@x.com", some " "⟩
        ⟨[⟨1, none, some " ", some "John", some "Doe", "NO_IDENTIFIER", 5, 100, 100, none⟩], 2⟩
        200 none).2.members.map Member.status = [STATUS_NO_IDENTIFIER]
    ∧ (processRecordWithMatch "update" ⟨"John", "Doe", some "john@x.com", some " "⟩
        ⟨[⟨1, none, some " ", some "John", some "Doe", "NO_IDENTIFIER", 5, 100, 100, none⟩], 2⟩
        200 none).2.members.map Member.daysRemaining = [5]
    ∧ (processRecordWithMatch "update" ⟨"John", "Doe", some "john@x.com", some " "⟩
        ⟨[⟨1, none, some " ", some "John", some "Doe", "NO_IDENTIFIER", 5, 100, 100, none⟩], 2⟩
        200 none).2.members.map Member.dateAdded = [100]
    ∧ (processRecordWithMatch "update" ⟨"John", "Doe", some "john@x.com", some " "⟩
        ⟨[⟨1, none, some " ", some "John", some "Doe", "NO_IDENTIFIER", 5, 100, 100, none⟩], 2⟩
        200 none).2.members.map Member.email = [some "john@x.com"] := by
  decide

/-- C9 (amended): every record the matcher returns has a truthy (non-null,
non-empty) email or phone; consequently a `NO_IDENTIFIER` record whose
identifiers are absent or empty is unreachable by every matching strategy and
the claimed re-enrollment implication holds for it vacuously.  (A
`NO_IDENTIFIER` record carrying a whitespace-only identifier is the
exception: it can be matched, and then keeps its status, retention counter
and `dateAdded`, as the counterexample shows.) -/
theorem C9_matched_record_has_identifier :
    (∀ (r : ParsedRecord) (s : List Member) (m : Member) (tag : String),
      findMatchingRecord r s = some (m, tag) →
      jsTruthy m.email = true ∨ jsTruthy m.phone = true)
    ∧ (∀ (r : ParsedRecord) (s : List Member) (m : Member) (tag : String),
      jsTruthy m.email = false → jsTruthy m.phone = false →
      findMatchingRecord r s = some (m, tag) → False) := by
  have main : ∀ (r : ParsedRecord) (s : List Member) (m : Member) (tag : String),
      findMatchingRecord r s = some (m, tag) →
      jsTruthy m.email = true ∨ jsTruthy m.phone = true := by
    intro r s m tag h
    unfold findMatchingRecord at h
    cases h1 : (if jsTruthy r.email && !(r.firstName == "") && !(r.lastName == "")
        then s.find? (emailNameWhere r) else none) with
    | some m1 =>
      rw [h1] at h
      simp only [Option.some.injEq, Prod.mk.injEq] at h
      obtain ⟨hg, hp, _⟩ := guardedFind_eq_some h1
      simp only [Bool.and_eq_true] at hg
      obtain ⟨e, he, hne⟩ := jsTruthy_some hg.1.1
      left
      rw [← h.1]
      exact optInsEq_jsTruthy (emailNameWhere_email he hp) hne
    | none =>
      rw [h1] at h
      cases h2 : (if jsTruthy r.phone && !(r.firstName == "") && !(r.lastName == "")
          then s.find? (phoneNameWhere r) else none) with
      | some m2 =>
        rw [h2] at h
        simp only [Option.some.injEq, Prod.mk.injEq] at h
        obtain ⟨hg, hp, _⟩ := guardedFind_eq_some h2
        simp only [Bool.and_eq_true] at hg
        obtain ⟨p, hpp, hne⟩ := jsTruthy_some hg.1.1
        right
        rw [← h.1]
        exact optExactEq_jsTruthy (phoneNameWhere_phone hpp hp) hne
      | none =>
        rw [h2] at h
        cases h3 : (if jsTruthy r.email then s.find? (emailWhere r) else none) with
        | some m3 =>
          rw [h3] at h
          simp only [Option.some.injEq, Prod.mk.injEq] at h
          obtain ⟨hg, hp, _⟩ := guardedFind_eq_some h3
          obtain ⟨e, he, hne⟩ := jsTruthy_some hg
          left
          rw [← h.1]
          have : optInsEq m3.email e = true := by
            simpa only [emailWhere, he] using hp
          exact optInsEq_jsTruthy this hne
        | none =>
          rw [h3] at h
          cases h4 : (if jsTruthy r.phone then s.find? (phoneWhere r) else none) with
          | some m4 =>
            rw [h4] at h
            simp only [Option.some.injEq, Prod.mk.injEq] at h
            obtain ⟨hg, hp, _⟩ := guardedFind_eq_some h4
            obtain ⟨p, hpp, hne⟩ := jsTruthy_some hg
            right
            rw [← h.1]
            have : optExactEq m4.phone p = true := by
              simpa only [phoneWhere, hpp] using hp
            exact optExactEq_jsTruthy this hne
          | none =>
            rw [h4] at h
            simp at h
  refine ⟨main, ?_⟩
  intro r s m tag hme hmp h
  rcases main r s m tag h with hc | hc
  · rw [hme] at hc
    exact Bool.false_ne_true hc
  · rw [hmp] at hc
    exact Bool.false_ne_true hc

/-- Witness for C9 (amended) at a concrete match. -/
theorem C9_matched_record_has_identifier_witness :
    jsTruthy (⟨1, some "john@x.com", none, some "John", some "Doe", "ACTIVE", 30, 0, 0,
        none⟩ : Member).email = true
    ∨ jsTruthy (⟨1, some "john@x.com", none, some "John", some "Doe", "ACTIVE", 30, 0, 0,
        none⟩ : Member).phone = true :=
  (C9_matched_record_has_identifier).1 ⟨"John", "Doe", some "john@x.com", none⟩
    [⟨1, some "john@x.com", none, some "John", some "Doe", "ACTIVE", 30, 0, 0, none⟩]
    ⟨1, some "john@x.com", none, some "John", some "Doe", "ACTIVE", 30, 0, 0, none⟩
    "email+name" (by decide)

/-! ## C8 — upload retry/abort contract: per-batch lemmas -/

theorem attemptBatch_attempts_bound (remote : RemoteBehavior) (b : Nat) :
    ∀ fuel attempt, ∀ q ∈ (attemptBatch remote b attempt fuel).2.1,
      q.1 = b ∧ attempt ≤ q.2 ∧ q.2 < attempt + fuel := by
  intro fuel
  induction fuel with
  | zero => intro attempt q hq; simp [attemptBatch] at hq
  | succ fuel ih =>
    intro attempt q hq
    cases hr : remote b attempt with
    | none =>
      simp [attemptBatch, hr] at hq
      subst hq
      exact ⟨rfl, le_refl _, by omega⟩
    | some e =>
      by_cases hf : fuel = 0
      · subst hf
        simp [attemptBatch, hr] at hq
        subst hq
        exact ⟨rfl, le_refl _, by omega⟩
      · by_cases hrl : isRateLimitError e
        · simp [attemptBatch, hr, hf, hrl] at hq
          rcases hq with hq | hq
          · subst hq
            exact ⟨rfl, le_refl _, by omega⟩
          · obtain ⟨h1, h2, h3⟩ := ih (attempt + 1) q hq
            exact ⟨h1, by omega, by omega⟩
        · simp [attemptBatch, hr, hf, hrl] at hq
          subst hq
          exact ⟨rfl, le_refl _, by omega⟩

theorem attemptBatch_error_source (remote : RemoteBehavior) (b : Nat) :
    ∀ fuel attempt e, (attemptBatch remote b attempt fuel).1 = some e →
      ∃ k, attempt ≤ k ∧ k < attempt + fuel ∧ remote b k = some e := by
  intro fuel
  induction fuel with
  | zero => intro attempt e h; simp [attemptBatch] at h
  | succ fuel ih =>
    intro attempt e h
    cases hr : remote b attempt with
    | none => simp [attemptBatch, hr] at h
    | some e0 =>
      by_cases hf : fuel = 0
      · subst hf
        simp [attemptBatch, hr] at h
        exact ⟨attempt, le_refl _, by omega, by rw [hr, h]⟩
      · by_cases hrl : isRateLimitError e0
        · simp only [attemptBatch, hr] at h
          rw [if_neg (by simpa using hf), if_pos (by simpa using hrl)] at h
          obtain ⟨k, h1, h2, h3⟩ := ih (attempt + 1) e h
          exact ⟨k, by omega, by omega, h3⟩
        · simp [attemptBatch, hr, hf, hrl] at h
          exact ⟨attempt, le_refl _, by omega, by rw [hr, h]⟩

theorem attemptBatch_nonretry_stop (remote : RemoteBehavior) (b : Nat) :
    ∀ fuel attempt k e, (b, k) ∈ (attemptBatch remote b attempt fuel).2.1 →
      remote b k = some e → isRateLimitError e = false →
      ∀ k', k < k' → (b, k') ∉ (attemptBatch remote b attempt fuel).2.1 := by
  intro fuel
  induction fuel with
  | zero => intro attempt k e hk _ _ k' _ hmem; simp [attemptBatch] at hmem
  | succ fuel ih =>
    intro attempt k e hk hre hnr k' hlt hmem
    cases hr : remote b attempt with
    | none =>
      simp [attemptBatch, hr] at hk hmem
      omega
    | some e0 =>
      by_cases hf : fuel = 0
      · subst hf
        simp [attemptBatch, hr] at hk hmem
        omega
      · by_cases hrl : isRateLimitError e0
        · simp [attemptBatch, hr, hf, hrl] at hk hmem
          rcases hk with hk | hk
          · subst hk
            rw [hr] at hre
            have he : e0 = e := by simpa using hre
            subst he
            rw [hrl] at hnr
            simp at hnr
          · rcases hmem with hmem | hmem
            · have hb := attemptBatch_attempts_bound remote b fuel (attempt + 1) _ hk
              omega
            · exact ih (attempt + 1) k e hk hre hnr k' hlt hmem
        · simp [attemptBatch, hr, hf, hrl] at hk hmem
          omega

theorem attemptBatch_first_attempt (remote : RemoteBehavior) (b : Nat) :
    ∀ fuel attempt, fuel ≠ 0 →
      (b, attempt) ∈ (attemptBatch remote b attempt fuel).2.1 := by
  intro fuel attempt hf
  cases fuel with
  | zero => exact absurd rfl hf
  | succ fuel =>
    cases hr : remote b attempt with
    | none => simp [attemptBatch, hr]
    | some e =>
      by_cases hf0 : fuel = 0
      · subst hf0
        simp [attemptBatch, hr]
      · by_cases hrl : isRateLimitError e
        · simp [attemptBatch, hr, hf0, hrl]
        · simp [attemptBatch, hr, hf0, hrl]

theorem attemptBatch_sleeps_spec (remote : RemoteBehavior) (b : Nat) :
    ∀ fuel attempt, ∀ d ∈ (attemptBatch remote b attempt fuel).2.2,
      ∃ k e, attempt ≤ k ∧ (b, k) ∈ (attemptBatch remote b attempt fuel).2.1
        ∧ remote b k = some e ∧ isRateLimitError e = true
        ∧ d = INITIAL_BACKOFF_MS * 2 ^ (k - 1)
        ∧ (b, k + 1) ∈ (attemptBatch remote b attempt fuel).2.1 := by
  intro fuel
  induction fuel with
  | zero => intro attempt d hd; simp [attemptBatch] at hd
  | succ fuel ih =>
    intro attempt d hd
    cases hr : remote b attempt with
    | none => simp [attemptBatch, hr] at hd
    | some e0 =>
      by_cases hf : fuel = 0
      · subst hf
        simp [attemptBatch, hr] at hd
      · by_cases hrl : isRateLimitError e0
        · have hnext : (b, attempt + 1) ∈ (attemptBatch remote b (attempt + 1) fuel).2.1 :=
            attemptBatch_first_attempt remote b fuel (attempt + 1) hf
          simp only [attemptBatch, hr] at hd
          rw [if_neg (by simpa using hf), if_pos (by simpa using hrl)] at hd
          simp only [List.mem_cons] at hd
          rcases hd with hd | hd
          · refine ⟨attempt, e0, le_refl _, ?_, hr, by simpa using hrl, hd, ?_⟩
            · simp [attemptBatch, hr, hf, hrl]
            · simp [attemptBatch, hr, hf, hrl]
              exact hnext
          · obtain ⟨k, e, hk1, hk2, hk3, hk4, hk5, hk6⟩ := ih (attempt + 1) d hd
            refine ⟨k, e, by omega, ?_, hk3, hk4, hk5, ?_⟩
            · simp [attemptBatch, hr, hf, hrl]
              right
              exact hk2
            · simp [attemptBatch, hr, hf, hrl]
              right
              exact hk6
        · simp [attemptBatch, hr, hf, hrl] at hd

theorem pairwise_le_of_const {l : List Nat} {c : Nat} (h : ∀ x ∈ l, x = c) :
    l.Pairwise (· ≤ ·) := by
  induction l with
  | nil => exact List.Pairwise.nil
  | cons x xs ih =>
    constructor
    · intro y hy
      rw [h x (by simp), h y (by simp [hy])]
    · exact ih (fun y hy => h y (by simp [hy]))

theorem uploadBatches_attempts_spec (remote : RemoteBehavior) :
    ∀ (batches : List (List FormattedRecord)) (bNum : Nat),
      ∀ q ∈ (uploadBatches remote bNum batches).attempts,
        bNum ≤ q.1 ∧ q.1 < bNum + batches.length ∧ 1 ≤ q.2 ∧ q.2 ≤ MAX_RETRIES := by
  intro batches
  induction batches with
  | nil => intro bNum q hq; simp [uploadBatches] at hq
  | cons batch rest ih =>
    intro bNum q hq
    cases hatt : (attemptBatch remote bNum 1 MAX_RETRIES).1 with
    | none =>
      simp only [uploadBatches, hatt] at hq
      rcases List.mem_append.mp hq with hq | hq
      · obtain ⟨h1, h2, h3⟩ := attemptBatch_attempts_bound remote bNum MAX_RETRIES 1 q hq
        refine ⟨by omega, by simp; omega, h2, by omega⟩
      · obtain ⟨h1, h2, h3, h4⟩ := ih (bNum + 1) q hq
        exact ⟨by omega, by simp; omega, h3, h4⟩
    | some e =>
      simp only [uploadBatches, hatt] at hq
      obtain ⟨h1, h2, h3⟩ := attemptBatch_attempts_bound remote bNum MAX_RETRIES 1 q hq
      exact ⟨by omega, by simp; omega, h2, by omega⟩

theorem uploadBatches_attempts_sorted (remote : RemoteBehavior) :
    ∀ (batches : List (List FormattedRecord)) (bNum : Nat),
      ((uploadBatches remote bNum batches).attempts.map Prod.fst).Pairwise (· ≤ ·) := by
  intro batches
  induction batches with
  | nil => intro bNum; simp [uploadBatches]
  | cons batch rest ih =>
    intro bNum
    have hconst : ∀ x ∈ ((attemptBatch remote bNum 1 MAX_RETRIES).2.1).map Prod.fst,
        x = bNum := by
      intro x hx
      obtain ⟨q, hq, hqx⟩ := List.mem_map.mp hx
      rw [← hqx]
      exact (attemptBatch_attempts_bound remote bNum MAX_RETRIES 1 q hq).1
    cases hatt : (attemptBatch remote bNum 1 MAX_RETRIES).1 with
    | none =>
      simp only [uploadBatches, hatt]
      rw [List.map_append]
      refine List.pairwise_append.mpr ⟨pairwise_le_of_const hconst, ih (bNum + 1), ?_⟩
      intro a ha b hb
      rw [hconst a ha]
      obtain ⟨q, hq, hqb⟩ := List.mem_map.mp hb
      have := (uploadBatches_attempts_spec remote rest (bNum + 1) q hq).1
      omega
    | some e =>
      simp only [uploadBatches, hatt]
      exact pairwise_le_of_const hconst

theorem uploadBatches_nonretry_stop (remote : RemoteBehavior) :
    ∀ (batches : List (List FormattedRecord)) (bNum : Nat) (b k : Nat) (e : MetaError)
      (k' : Nat),
      (b, k) ∈ (uploadBatches remote bNum batches).attempts →
      remote b k = some e → isRateLimitError e = false → k < k' →
      (b, k') ∉ (uploadBatches remote bNum batches).attempts := by
  intro batches
  induction batches with
  | nil => intro bNum b k e k' hk _ _ _ hmem; simp [uploadBatches] at hmem
  | cons batch rest ih =>
    intro bNum b k e k' hk hre hnr hlt hmem
    cases hatt : (attemptBatch remote bNum 1 MAX_RETRIES).1 with
    | none =>
      simp only [uploadBatches, hatt] at hk hmem
      rcases List.mem_append.mp hk with hk | hk
      · have hb : b = bNum := (attemptBatch_attempts_bound remote bNum MAX_RETRIES 1 _ hk).1
        rcases List.mem_append.mp hmem with hmem | hmem
        · exact attemptBatch_nonretry_stop remote bNum MAX_RETRIES 1 k e
            (hb ▸ hk) (hb ▸ hre) hnr k' hlt (hb ▸ hmem)
        · have := (uploadBatches_attempts_spec remote rest (bNum + 1) _ hmem).1
          simp at this
          omega
      · have hb : bNum + 1 ≤ b := (uploadBatches_attempts_spec remote rest (bNum + 1) _ hk).1
        rcases List.mem_append.mp hmem with hmem | hmem
        · have := (attemptBatch_attempts_bound remote bNum MAX_RETRIES 1 _ hmem).1
          simp at this
          omega
        · exact ih (bNum + 1) b k e k' hk hre hnr hlt hmem
    | some e0 =>
      simp only [uploadBatches, hatt] at hk hmem
      have hb : b = bNum := (attemptBatch_attempts_bound remote bNum MAX_RETRIES 1 _ hk).1
      exact attemptBatch_nonretry_stop remote bNum MAX_RETRIES 1 k e
        (hb ▸ hk) (hb ▸ hre) hnr k' hlt (hb ▸ hmem)

theorem uploadBatches_sleeps_spec (remote : RemoteBehavior) :
    ∀ (batches : List (List FormattedRecord)) (bNum : Nat),
      ∀ d ∈ (uploadBatches remote bNum batches).sleeps,
        ∃ b k e, (b, k) ∈ (uploadBatches remote bNum batches).attempts
          ∧ remote b k = some e ∧ isRateLimitError e = true
          ∧ d = INITIAL_BACKOFF_MS * 2 ^ (k - 1)
          ∧ (b, k + 1) ∈ (uploadBatches remote bNum batches).attempts := by
  intro batches
  induction batches with
  | nil => intro bNum d hd; simp [uploadBatches] at hd
  | cons batch rest ih =>
    intro bNum d hd
    cases hatt : (attemptBatch remote bNum 1 MAX_RETRIES).1 with
    | none =>
      simp only [uploadBatches, hatt] at hd ⊢
      rcases List.mem_append.mp hd with hd | hd
      · obtain ⟨k, e, _, hk2, hk3, hk4, hk5, hk6⟩ :=
          attemptBatch_sleeps_spec remote bNum MAX_RETRIES 1 d hd
        exact ⟨bNum, k, e, List.mem_append_left _ hk2, hk3, hk4, hk5,
          List.mem_append_left _ hk6⟩
      · obtain ⟨b, k, e, hk1, hk2, hk3, hk4, hk5⟩ := ih (bNum + 1) d hd
        exact ⟨b, k, e, List.mem_append_right _ hk1, hk2, hk3, hk4,
          List.mem_append_right _ hk5⟩
    | some e0 =>
      simp only [uploadBatches, hatt] at hd ⊢
      obtain ⟨k, e, _, hk2, hk3, hk4, hk5, hk6⟩ :=
        attemptBatch_sleeps_spec remote bNum MAX_RETRIES 1 d hd
      exact ⟨bNum, k, e, hk2, hk3, hk4, hk5, hk6⟩

theorem uploadBatches_error_spec (remote : RemoteBehavior) :
    ∀ (batches : List (List FormattedRecord)) (bNum : Nat) (msg : String),
      (uploadBatches remote bNum batches).error = some msg →
      ∃ b e, bNum ≤ b ∧ b < bNum + batches.length
        ∧ msg = "Failed to upload batch " ++ toString b ++ ": " ++ formatMetaError e
        ∧ (∃ k, 1 ≤ k ∧ k ≤ MAX_RETRIES ∧ remote b k = some e)
        ∧ (∀ q ∈ (uploadBatches remote bNum batches).attempts, q.1 ≤ b)
        ∧ (uploadBatches remote bNum batches).uploaded
            = ((batches.take (b - bNum)).map List.length).sum := by
  intro batches
  induction batches with
  | nil => intro bNum msg h; simp [uploadBatches] at h
  | cons batch rest ih =>
    intro bNum msg h
    cases hatt : (attemptBatch remote bNum 1 MAX_RETRIES).1 with
    | none =>
      simp only [uploadBatches, hatt] at h ⊢
      obtain ⟨b, e, h1, h2, h3, h4, h5, h6⟩ := ih (bNum + 1) msg h
      refine ⟨b, e, by omega, by simp; omega, h3, h4, ?_, ?_⟩
      · intro q hq
        rcases List.mem_append.mp hq with hq | hq
        · have := (attemptBatch_attempts_bound remote bNum MAX_RETRIES 1 q hq).1
          omega
        · exact h5 q hq
      · have hsub : b - bNum = (b - (bNum + 1)) + 1 := by omega
        rw [hsub, List.take_succ_cons, List.map_cons, List.sum_cons, h6]
    | some e0 =>
      simp only [uploadBatches, hatt] at h ⊢
      obtain ⟨k, hk1, hk2, hk3⟩ := attemptBatch_error_source remote bNum MAX_RETRIES 1 e0 hatt
      refine ⟨bNum, e0, le_refl _, by simp, ?_, ⟨k, hk1, by omega, hk3⟩, ?_, ?_⟩
      · simpa using h.symm
      · intro q hq
        have := (attemptBatch_attempts_bound remote bNum MAX_RETRIES 1 q hq).1
        omega
      · simp

theorem uploadToCustomerList_eq_batches (remote : RemoteBehavior)
    (data : List FormattedRecord) :
    uploadToCustomerList remote data
      = uploadBatches remote 1 (chunksOf META_BATCH_SIZE data) := by
  unfold uploadToCustomerList
  cases data with
  | nil => simp [chunksOf, chunksAux, uploadBatches]
  | cons x xs => simp

set_option maxRecDepth 10000

/-- C8: batches of `BATCH_SIZE` are attempted sequentially in order; every
batch is attempted at most `MAX_RETRIES` times; a non-rate-limit failure on
an attempt stops further attempts on that batch; every backoff sleep is
`INITIAL_BACKOFF_MS * 2^(attempt-1)` for a rate-limit-failed attempt that
was followed by the next attempt; a thrown error is
`Failed to upload batch {n}: {formatted remote error}` for some failing
batch n, no later batch is ever attempted, and the uploaded count is the
total size of the batches before n.  Concretely, with 1500 records and a
non-rate-limit failure on the second batch, 1000 records are uploaded, the
run fails with the formatted remote error, and only attempts (1,1) and
(2,1) are made with no backoff sleeps. -/
theorem C8_upload_retry_abort (remote : RemoteBehavior) (data : List FormattedRecord) :
    (∀ q ∈ (uploadToCustomerList remote data).attempts,
        1 ≤ q.1 ∧ q.1 ≤ (chunksOf META_BATCH_SIZE data).length
        ∧ 1 ≤ q.2 ∧ q.2 ≤ MAX_RETRIES)
    ∧ ((uploadToCustomerList remote data).attempts.map Prod.fst).Pairwise (· ≤ ·)
    ∧ (∀ b k e k', (b, k) ∈ (uploadToCustomerList remote data).attempts →
        remote b k = some e → isRateLimitError e = false → k < k' →
        (b, k') ∉ (uploadToCustomerList remote data).attempts)
    ∧ (∀ d ∈ (uploadToCustomerList remote data).sleeps,
        ∃ b k e, (b, k) ∈ (uploadToCustomerList remote data).attempts
          ∧ remote b k = some e ∧ isRateLimitError e = true
          ∧ d = INITIAL_BACKOFF_MS * 2 ^ (k - 1)
          ∧ (b, k + 1) ∈ (uploadToCustomerList remote data).attempts)
    ∧ (∀ msg, (uploadToCustomerList remote data).error = some msg →
        ∃ b e, 1 ≤ b ∧ b ≤ (chunksOf META_BATCH_SIZE data).length
          ∧ msg = "Failed to upload batch " ++ toString b ++ ": " ++ formatMetaError e
          ∧ (∃ k, 1 ≤ k ∧ k ≤ MAX_RETRIES ∧ remote b k = some e)
          ∧ (∀ q ∈ (uploadToCustomerList remote data).attempts, q.1 ≤ b)
          ∧ (uploadToCustomerList remote data).uploaded
              = (((chunksOf META_BATCH_SIZE data).take (b - 1)).map List.length).sum)
    ∧ uploadToCustomerList
        (fun b _ => if b == 2 then some ⟨"[100] Invalid parameter", some 100⟩ else none)
        (List.replicate 1500 ⟨some "x", none, none, none⟩)
      = ⟨1000, some "Failed to upload batch 2: [100] Invalid parameter",
          [(1, 1), (2, 1)], []⟩ := by
  rw [uploadToCustomerList_eq_batches]
  refine ⟨?_, ?_, ?_, ?_, ?_, by decide⟩
  · intro q hq
    obtain ⟨h1, h2, h3, h4⟩ :=
      uploadBatches_attempts_spec remote (chunksOf META_BATCH_SIZE data) 1 q hq
    exact ⟨h1, by omega, h3, h4⟩
  · exact uploadBatches_attempts_sorted remote (chunksOf META_BATCH_SIZE data) 1
  · intro b k e k' hk hre hnr hlt
    exact uploadBatches_nonretry_stop remote (chunksOf META_BATCH_SIZE data) 1 b k e k'
      hk hre hnr hlt
  · intro d hd
    exact uploadBatches_sleeps_spec remote (chunksOf META_BATCH_SIZE data) 1 d hd
  · intro msg hmsg
    obtain ⟨b, e, h1, h2, h3, h4, h5, h6⟩ :=
      uploadBatches_error_spec remote (chunksOf META_BATCH_SIZE data) 1 msg hmsg
    exact ⟨b, e, h1, by omega, h3, h4, h5, h6⟩

/-- Witness for C8: in the 1500-record scenario the non-rate-limit failure
of batch 2 at attempt 1 means attempt 2 on batch 2 never happens. -/
theorem C8_upload_retry_abort_witness :
    (2, 2) ∉ (uploadToCustomerList
        (fun b _ => if b == 2 then some ⟨"[100] Invalid parameter", some 100⟩ else none)
        (List.replicate 1500 ⟨some "x", none, none, none⟩)).attempts :=
  (C8_upload_retry_abort
      (fun b _ => if b == 2 then some ⟨"[100] Invalid parameter", some 100⟩ else none)
      (List.replicate 1500 ⟨some "x", none, none, none⟩)).2.2.1
    2 1 ⟨"[100] Invalid parameter", some 100⟩ 2 (by decide) rfl (by decide) (by decide)

/-! ## C4 — idempotence of reconciliation: store-update lemmas -/

theorem mapIf_find?_of_found {s : List Member} {p : Member → Bool} {m m2 : Member}
    (hf : s.find? p = some m) (hp2 : p m2 = true) :
    (s.map (fun x => if x.id == m.id then m2 else x)).find? p = some m2 := by
  induction s with
  | nil => simp at hf
  | cons x xs ih =>
    cases hx : p x with
    | true =>
      rw [List.find?_cons_of_pos _ hx] at hf
      have hxm : x = m := by simpa using hf
      subst hxm
      simp only [List.map_cons, beq_self_eq_true, if_true]
      exact List.find?_cons_of_pos _ hp2
    | false =>
      rw [List.find?_cons_of_neg _ (by simp [hx])] at hf
      by_cases hid : x.id = m.id
      · simp only [List.map_cons, hid, beq_self_eq_true, if_true]
        exact List.find?_cons_of_pos _ hp2
      · have hhead : (if (x.id == m.id) = true then m2 else x) = x := by
          rw [if_neg]
          simpa using hid
        simp only [List.map_cons, hhead]
        rw [List.find?_cons_of_neg _ (by simp [hx])]
        exact ih hf

theorem mapIf_find?_of_none_pos {s : List Member} {p : Member → Bool} {tid : Nat} {m2 : Member}
    (hf : s.find? p = none) (hp2 : p m2 = true) (hex : ∃ x ∈ s, x.id = tid) :
    (s.map (fun x => if x.id == tid then m2 else x)).find? p = some m2 := by
  induction s with
  | nil => simp at hex
  | cons x xs ih =>
    have hx : p x = false := by
      have := List.find?_eq_none.mp hf x (by simp)
      simpa using this
    have hfx : xs.find? p = none := by
      rw [List.find?_cons_of_neg _ (by simp [hx])] at hf
      exact hf
    by_cases hid : x.id = tid
    · simp only [List.map_cons, hid, beq_self_eq_true, if_true]
      exact List.find?_cons_of_pos _ hp2
    · have hhead : (if (x.id == tid) = true then m2 else x) = x := by
        rw [if_neg]
        simpa using hid
      simp only [List.map_cons, hhead]
      rw [List.find?_cons_of_neg _ (by simp [hx])]
      rcases hex with ⟨y, hy, hyt⟩
      rcases List.mem_cons.mp hy with hy | hy
      · subst hy
        exact absurd hyt hid
      · exact ih hfx ⟨y, hy, hyt⟩

theorem mapIf_find?_of_none_neg {s : List Member} {p : Member → Bool} {tid : Nat} {m2 : Member}
    (hf : s.find? p = none) (hp2 : p m2 = false) :
    (s.map (fun x => if x.id == tid then m2 else x)).find? p = none := by
  rw [List.find?_eq_none]
  intro a ha
  obtain ⟨x, hx, hax⟩ := List.mem_map.mp ha
  by_cases hid : x.id = tid
  · rw [if_pos (by simpa using hid)] at hax
    rw [← hax]
    simp [hp2]
  · rw [if_neg (by simpa using hid)] at hax
    rw [← hax]
    have := List.find?_eq_none.mp hf x hx
    simpa using this

theorem guardedFind_some_inv {g : Bool} {p : Member → Bool} {l : List Member} {m : Member}
    (h : (if g then l.find? p else none) = some m) : g = true ∧ l.find? p = some m := by
  cases g with
  | false => simp at h
  | true => exact ⟨rfl, by simpa using h⟩

theorem guardedFind_none_inv {g : Bool} {p : Member → Bool} {l : List Member}
    (h : (if g then l.find? p else none) = none) : g = false ∨ l.find? p = none := by
  cases g with
  | false => exact Or.inl rfl
  | true => exact Or.inr (by simpa using h)

/-- One cascade step of run 2: a strategy that found nothing in run 1 either
still finds nothing after the matched record was replaced by `m2`, or now
finds exactly `m2`. -/
theorem mapped_scrutinee (g : Bool) (p : Member → Bool) (s : List Member) (m m2 : Member)
    (hm : m ∈ s) (h : (if g then s.find? p else none) = none) :
    (if g then (s.map (fun x => if x.id == m.id then m2 else x)).find? p else none) = none
    ∨ (if g then (s.map (fun x => if x.id == m.id then m2 else x)).find? p else none)
        = some m2 := by
  cases g with
  | false => left; simp
  | true =>
    have hf : s.find? p = none := by simpa using h
    by_cases hp : p m2 = true
    · right
      simpa using mapIf_find?_of_none_pos hf hp ⟨m, hm, rfl⟩
    · left
      simpa using mapIf_find?_of_none_neg hf (by simpa using hp)

/-- After run 1 matched `m` and replaced it (by id) with `m2`, run 2 finds
`m2` — possibly via an earlier strategy — provided `m2` still satisfies each
match clause `m` satisfied. -/
theorem findMatchingRecord_after_update (r : ParsedRecord) (s : List Member)
    (m m2 : Member) (tag : String)
    (h : findMatchingRecord r s = some (m, tag))
    (q1 : emailNameWhere r m = true → emailNameWhere r m2 = true)
    (q2 : phoneNameWhere r m = true → phoneNameWhere r m2 = true)
    (q3 : emailWhere r m = true → emailWhere r m2 = true)
    (q4 : phoneWhere r m = true → phoneWhere r m2 = true) :
    ∃ tag2, findMatchingRecord r (s.map (fun x => if x.id == m.id then m2 else x))
      = some (m2, tag2) := by
  unfold findMatchingRecord at h
  cases h1 : (if jsTruthy r.email && !(r.firstName == "") && !(r.lastName == "")
      then s.find? (emailNameWhere r) else none) with
  | some m1 =>
    rw [h1] at h
    simp only [Option.some.injEq, Prod.mk.injEq] at h
    obtain ⟨hg1, hf1⟩ := guardedFind_some_inv h1
    rw [h.1] at hf1
    refine ⟨"email+name", ?_⟩
    unfold findMatchingRecord
    rw [if_pos hg1, mapIf_find?_of_found hf1 (q1 (List.find?_some hf1))]
  | none =>
    rw [h1] at h
    cases h2 : (if jsTruthy r.phone && !(r.firstName == "") && !(r.lastName == "")
        then s.find? (phoneNameWhere r) else none) with
    | some m1 =>
      rw [h2] at h
      simp only [Option.some.injEq, Prod.mk.injEq] at h
      obtain ⟨hg2, hf2⟩ := guardedFind_some_inv h2
      rw [h.1] at hf2
      have hmem : m ∈ s := List.mem_of_find?_eq_some hf2
      unfold findMatchingRecord
      rcases mapped_scrutinee _ (emailNameWhere r) s m m2 hmem h1 with hs1 | hs1
      · rw [hs1, if_pos hg2, mapIf_find?_of_found hf2 (q2 (List.find?_some hf2))]
        exact ⟨"phone+name", rfl⟩
      · rw [hs1]
        exact ⟨"email+name", rfl⟩
    | none =>
      rw [h2] at h
      cases h3 : (if jsTruthy r.email then s.find? (emailWhere r) else none) with
      | some m1 =>
        rw [h3] at h
        simp only [Option.some.injEq, Prod.mk.injEq] at h
        obtain ⟨hg3, hf3⟩ := guardedFind_some_inv h3
        rw [h.1] at hf3
        have hmem : m ∈ s := List.mem_of_find?_eq_some hf3
        unfold findMatchingRecord
        rcases mapped_scrutinee _ (emailNameWhere r) s m m2 hmem h1 with hs1 | hs1
        · rw [hs1]
          rcases mapped_scrutinee _ (phoneNameWhere r) s m m2 hmem h2 with hs2 | hs2
          · rw [hs2, if_pos hg3, mapIf_find?_of_found hf3 (q3 (List.find?_some hf3))]
            exact ⟨"email", rfl⟩
          · rw [hs2]
            exact ⟨"phone+name", rfl⟩
        · rw [hs1]
          exact ⟨"email+name", rfl⟩
      | none =>
        rw [h3] at h
        cases h4 : (if jsTruthy r.phone then s.find? (phoneWhere r) else none) with
        | some m1 =>
          rw [h4] at h
          simp only [Option.some.injEq, Prod.mk.injEq] at h
          obtain ⟨hg4, hf4⟩ := guardedFind_some_inv h4
          rw [h.1] at hf4
          have hmem : m ∈ s := List.mem_of_find?_eq_some hf4
          unfold findMatchingRecord
          rcases mapped_scrutinee _ (emailNameWhere r) s m m2 hmem h1 with hs1 | hs1
          · rw [hs1]
            rcases mapped_scrutinee _ (phoneNameWhere r) s m m2 hmem h2 with hs2 | hs2
            · rw [hs2]
              rcases mapped_scrutinee _ (emailWhere r) s m m2 hmem h3 with hs3 | hs3
              · rw [hs3, if_pos hg4, mapIf_find?_of_found hf4 (q4 (List.find?_some hf4))]
                exact ⟨"phone", rfl⟩
              · rw [hs3]
                exact ⟨"email", rfl⟩
            · rw [hs2]
              exact ⟨"phone+name", rfl⟩
          · rw [hs1]
            exact ⟨"email+name", rfl⟩
        | none =>
          rw [h4] at h
          simp at h

/-- When run 1 found no match and created an exact copy of the row, run 2
finds that copy via its first applicable strategy. -/
theorem findMatchingRecord_after_create (r : ParsedRecord) (s : List Member) (newm : Member)
    (h : findMatchingRecord r s = none)
    (hident : jsTruthy r.email = true ∨ jsTruthy r.phone = true)
    (hne : jsTruthy r.email = true →
      emailNameWhere r newm = true ∧ emailWhere r newm = true)
    (hnp : jsTruthy r.phone = true →
      phoneNameWhere r newm = true ∧ phoneWhere r newm = true) :
    ∃ tag2, findMatchingRecord r (s ++ [newm]) = some (newm, tag2) := by
  unfold findMatchingRecord at h
  cases h1 : (if jsTruthy r.email && !(r.firstName == "") && !(r.lastName == "")
      then s.find? (emailNameWhere r) else none) with
  | some m1 => rw [h1] at h; simp at h
  | none =>
  rw [h1] at h
  cases h2 : (if jsTruthy r.phone && !(r.firstName == "") && !(r.lastName == "")
      then s.find? (phoneNameWhere r) else none) with
  | some m1 => rw [h2] at h; simp at h
  | none =>
  rw [h2] at h
  cases h3 : (if jsTruthy r.email then s.find? (emailWhere r) else none) with
  | some m1 => rw [h3] at h; simp at h
  | none =>
  rw [h3] at h
  cases h4 : (if jsTruthy r.phone then s.find? (phoneWhere r) else none) with
  | some m1 => rw [h4] at h; simp at h
  | none =>
  clear h
  have append_step : ∀ (g : Bool) (p : Member → Bool),
      (if g then s.find? p else none) = none → (g = true → p newm = true) →
      (if g then (s ++ [newm]).find? p else none) = none
      ∨ (if g then (s ++ [newm]).find? p else none) = some newm := by
    intro g p hnone hp
    cases g with
    | false => left; simp
    | true =>
      right
      have hf : s.find? p = none := by simpa using hnone
      simp [List.find?_append, hf, List.find?_cons_of_pos _ (hp rfl)]
  unfold findMatchingRecord
  rcases append_step _ (emailNameWhere r) h1
      (fun hg => (hne (by simp only [Bool.and_eq_true] at hg; exact hg.1.1)).1) with hs1 | hs1
  · rw [hs1]
    rcases append_step _ (phoneNameWhere r) h2
        (fun hg => (hnp (by simp only [Bool.and_eq_true] at hg; exact hg.1.1)).1) with hs2 | hs2
    · rw [hs2]
      rcases append_step _ (emailWhere r) h3 (fun hg => (hne hg).2) with hs3 | hs3
      · rw [hs3]
        rcases append_step _ (phoneWhere r) h4 (fun hg => (hnp hg).2) with hs4 | hs4
        · exfalso
          rcases hident with hid | hid
          · rcases guardedFind_none_inv hs3 with hg | hf
            · rw [hid] at hg
              simp at hg
            · have hp3 : emailWhere r newm = true := (hne hid).2
              rw [hid] at hs3
              simp only [if_true] at hs3
              rw [List.find?_eq_none] at hs3
              have := hs3 newm (by simp)
              exact this hp3
          · rcases guardedFind_none_inv hs4 with hg | hf
            · rw [hid] at hg
              simp at hg
            · have hp4 : phoneWhere r newm = true := (hnp hid).2
              rw [hid] at hs4
              simp only [if_true] at hs4
              rw [List.find?_eq_none] at hs4
              have := hs4 newm (by simp)
              exact this hp4
        · rw [hs4]
          exact ⟨"phone", rfl⟩
      · rw [hs3]
        exact ⟨"email", rfl⟩
    · rw [hs2]
      exact ⟨"phone+name", rfl⟩
  · rw [hs1]
    exact ⟨"email+name", rfl⟩

theorem amd_email (r : ParsedRecord) (t : Nat) (m : Member) :
    (applyMatchDiff r t m).2.email = if emailChangedB r m then r.email else m.email := rfl

theorem amd_phone (r : ParsedRecord) (t : Nat) (m : Member) :
    (applyMatchDiff r t m).2.phone = if phoneChangedB r m then r.phone else m.phone := rfl

theorem amd_fn (r : ParsedRecord) (t : Nat) (m : Member) :
    (applyMatchDiff r t m).2.firstName
      = if fnChangedB r m then some r.firstName else m.firstName := rfl

theorem amd_ln (r : ParsedRecord) (t : Nat) (m : Member) :
    (applyMatchDiff r t m).2.lastName
      = if lnChangedB r m then some r.lastName else m.lastName := rfl

theorem amd_fields (r : ParsedRecord) (t : Nat) (m : Member) :
    (applyMatchDiff r t m).1
      = (if emailChangedB r m then ["email"] else [])
        ++ (if phoneChangedB r m then ["phone"] else [])
        ++ (if fnChangedB r m then ["firstName"] else [])
        ++ (if lnChangedB r m then ["lastName"] else [])
        ++ (if reenrollB r m then ["status"] else []) := rfl

theorem optInsEq_ite_self {b : Bool} {mo : Option String} {x : String}
    (h : optInsEq mo x = true) : optInsEq (if b then some x else mo) x = true := by
  cases b
  · simpa using h
  · simp [optInsEq, iEq_refl]

theorem optExactEq_ite_self {b : Bool} {mo : Option String} {p : String}
    (h : optExactEq mo p = true) : optExactEq (if b then some p else mo) p = true := by
  cases b
  · simpa using h
  · simp [optExactEq]

theorem emailNameWhere_amd (r : ParsedRecord) (t : Nat) (m : Member)
    (h : emailNameWhere r m = true) :
    emailNameWhere r (applyMatchDiff r t m).2 = true := by
  unfold emailNameWhere at h ⊢
  simp only [Bool.and_eq_true] at h ⊢
  obtain ⟨⟨hemail, hfn⟩, hln⟩ := h
  refine ⟨⟨?_, ?_⟩, ?_⟩
  · cases he : r.email with
    | none =>
      rw [he] at hemail
      exact absurd hemail (by simp)
    | some e =>
      rw [he] at hemail
      rw [amd_email, he]
      exact optInsEq_ite_self hemail
  · rw [amd_fn]
    exact optInsEq_ite_self hfn
  · rw [amd_ln]
    exact optInsEq_ite_self hln

theorem phoneNameWhere_amd (r : ParsedRecord) (t : Nat) (m : Member)
    (h : phoneNameWhere r m = true) :
    phoneNameWhere r (applyMatchDiff r t m).2 = true := by
  unfold phoneNameWhere at h ⊢
  simp only [Bool.and_eq_true] at h ⊢
  obtain ⟨⟨hphone, hfn⟩, hln⟩ := h
  refine ⟨⟨?_, ?_⟩, ?_⟩
  · cases hp : r.phone with
    | none =>
      rw [hp] at hphone
      exact absurd hphone (by simp)
    | some p =>
      rw [hp] at hphone
      rw [amd_phone, hp]
      exact optExactEq_ite_self hphone
  · rw [amd_fn]
    exact optInsEq_ite_self hfn
  · rw [amd_ln]
    exact optInsEq_ite_self hln

theorem emailWhere_amd (r : ParsedRecord) (t : Nat) (m : Member)
    (h : emailWhere r m = true) :
    emailWhere r (applyMatchDiff r t m).2 = true := by
  unfold emailWhere at h ⊢
  cases he : r.email with
  | none =>
    rw [he] at h
    exact absurd h (by simp)
  | some e =>
    rw [he] at h
    rw [amd_email, he]
    exact optInsEq_ite_self h

theorem phoneWhere_amd (r : ParsedRecord) (t : Nat) (m : Member)
    (h : phoneWhere r m = true) :
    phoneWhere r (applyMatchDiff r t m).2 = true := by
  unfold phoneWhere at h ⊢
  cases hp : r.phone with
  | none =>
    rw [hp] at h
    exact absurd h (by simp)
  | some p =>
    rw [hp] at h
    rw [amd_phone, hp]
    exact optExactEq_ite_self h

theorem amd_absorb_email (r : ParsedRecord) (t : Nat) (m : Member) (e : String)
    (he : r.email = some e) (hne : e ≠ "") : (applyMatchDiff r t m).2.email = some e := by
  rw [amd_email]
  cases hc : emailChangedB r m
  · unfold emailChangedB at hc
    rw [he] at hc
    simp only [Bool.and_eq_false_iff] at hc
    rcases hc with hc | hc
    · simp [hne] at hc
    · rw [if_neg (by decide)]
      simpa using hc
  · rw [if_pos rfl, he]

theorem amd_absorb_phone (r : ParsedRecord) (t : Nat) (m : Member) (p : String)
    (hp : r.phone = some p) (hne : p ≠ "") : (applyMatchDiff r t m).2.phone = some p := by
  rw [amd_phone]
  cases hc : phoneChangedB r m
  · unfold phoneChangedB at hc
    rw [hp] at hc
    simp only [Bool.and_eq_false_iff] at hc
    rcases hc with hc | hc
    · simp [hne] at hc
    · rw [if_neg (by decide)]
      simpa using hc
  · rw [if_pos rfl, hp]

theorem amd_absorb_fn (r : ParsedRecord) (t : Nat) (m : Member)
    (h : r.firstName ≠ "") : (applyMatchDiff r t m).2.firstName = some r.firstName := by
  rw [amd_fn]
  cases hc : fnChangedB r m
  · unfold fnChangedB at hc
    simp only [Bool.and_eq_false_iff] at hc
    rcases hc with hc | hc
    · simp [h] at hc
    · rw [if_neg (by decide)]
      simpa using hc
  · rw [if_pos rfl]

theorem amd_absorb_ln (r : ParsedRecord) (t : Nat) (m : Member)
    (h : r.lastName ≠ "") : (applyMatchDiff r t m).2.lastName = some r.lastName := by
  rw [amd_ln]
  cases hc : lnChangedB r m
  · unfold lnChangedB at hc
    simp only [Bool.and_eq_false_iff] at hc
    rcases hc with hc | hc
    · simp [h] at hc
    · rw [if_neg (by decide)]
      simpa using hc
  · rw [if_pos rfl]

/-- A row whose non-null, non-empty fields all agree exactly with a stored
record produces an empty field-level diff against it (given the record has a
truthy identifier, so the re-enrollment branch cannot fire). -/
theorem amd_fields_nil (r : ParsedRecord) (t : Nat) (mm : Member)
    (he : ∀ e, r.email = some e → e ≠ "" → mm.email = some e)
    (hp : ∀ p, r.phone = some p → p ≠ "" → mm.phone = some p)
    (hf : r.firstName ≠ "" → mm.firstName = some r.firstName)
    (hl : r.lastName ≠ "" → mm.lastName = some r.lastName)
    (hid : jsTruthy mm.email = true ∨ jsTruthy mm.phone = true) :
    (applyMatchDiff r t mm).1 = [] := by
  have hec : emailChangedB r mm = false := by
    unfold emailChangedB
    cases hre : r.email with
    | none => rfl
    | some e =>
      by_cases hne : e = ""
      · simp [hne]
      · rw [he e hre hne]
        simp
  have hpc : phoneChangedB r mm = false := by
    unfold phoneChangedB
    cases hrp : r.phone with
    | none => rfl
    | some p =>
      by_cases hne : p = ""
      · simp [hne]
      · rw [hp p hrp hne]
        simp
  have hfc : fnChangedB r mm = false := by
    unfold fnChangedB
    by_cases hne : r.firstName = ""
    · simp [hne]
    · rw [hf hne]
      simp
  have hlc : lnChangedB r mm = false := by
    unfold lnChangedB
    by_cases hne : r.lastName = ""
    · simp [hne]
    · rw [hl hne]
      simp
  have hren : reenrollB r mm = false := by
    unfold reenrollB
    rcases hid with h | h <;> simp [h]
  rw [amd_fields, hec, hpc, hfc, hlc, hren]
  simp

/-- C4 (amended): processing the same row twice through the match-append
engine (any mode) with no intervening change leaves the second pass a no-op:
its action is `skipped` and the store is unchanged — provided the row
carries at least one truthy identifier.  (Rows with no identifier are
re-created on every pass, and the bulk engine reports matched rows as
`updated`, not skipped; see the counterexample.) -/
theorem C4_row_level_idempotence (mode : String) (r : ParsedRecord) (st : St)
    (t1 t2 : Nat) (sf1 sf2 : Option String)
    (hident : jsTruthy r.email = true ∨ jsTruthy r.phone = true) :
    (processRecordWithMatch mode r (processRecordWithMatch mode r st t1 sf1).2 t2 sf2).1.action
      = "skipped"
    ∧ (processRecordWithMatch mode r (processRecordWithMatch mode r st t1 sf1).2 t2 sf2).2
      = (processRecordWithMatch mode r st t1 sf1).2 := by
  cases hfind : findMatchingRecord r st.members with
  | none =>
    have hrun1 : processRecordWithMatch mode r st t1 sf1
        = (⟨"created", st.nextId, none, none⟩,
           ⟨st.members ++ [⟨st.nextId, r.email, r.phone, some r.firstName, some r.lastName,
              getRecordStatus r.email r.phone, DAYS_REMAINING_DEFAULT, t1, t1, sf1⟩],
            st.nextId + 1⟩) := by
      unfold processRecordWithMatch
      rw [hfind]
    have hne : jsTruthy r.email = true →
        emailNameWhere r ⟨st.nextId, r.email, r.phone, some r.firstName, some r.lastName,
          getRecordStatus r.email r.phone, DAYS_REMAINING_DEFAULT, t1, t1, sf1⟩ = true
        ∧ emailWhere r ⟨st.nextId, r.email, r.phone, some r.firstName, some r.lastName,
          getRecordStatus r.email r.phone, DAYS_REMAINING_DEFAULT, t1, t1, sf1⟩ = true := by
      intro h
      obtain ⟨e, he, _⟩ := jsTruthy_some h
      constructor
      · simp [emailNameWhere, he, optInsEq, iEq_refl]
      · simp [emailWhere, he, optInsEq, iEq_refl]
    have hnp : jsTruthy r.phone = true →
        phoneNameWhere r ⟨st.nextId, r.email, r.phone, some r.firstName, some r.lastName,
          getRecordStatus r.email r.phone, DAYS_REMAINING_DEFAULT, t1, t1, sf1⟩ = true
        ∧ phoneWhere r ⟨st.nextId, r.email, r.phone, some r.firstName, some r.lastName,
          getRecordStatus r.email r.phone, DAYS_REMAINING_DEFAULT, t1, t1, sf1⟩ = true := by
      intro h
      obtain ⟨p, hp, _⟩ := jsTruthy_some h
      constructor
      · simp [phoneNameWhere, hp, optExactEq, optInsEq, iEq_refl]
      · simp [phoneWhere, hp, optExactEq]
    obtain ⟨tag2, hfind2⟩ := findMatchingRecord_after_create r st.members
      ⟨st.nextId, r.email, r.phone, some r.firstName, some r.lastName,
        getRecordStatus r.email r.phone, DAYS_REMAINING_DEFAULT, t1, t1, sf1⟩
      hfind hident hne hnp
    have hnil : ∀ t, (applyMatchDiff r t
        ⟨st.nextId, r.email, r.phone, some r.firstName, some r.lastName,
          getRecordStatus r.email r.phone, DAYS_REMAINING_DEFAULT, t1, t1, sf1⟩).1 = [] := by
      intro t
      apply amd_fields_nil
      · intro e he _
        simpa using he
      · intro p hp _
        simpa using hp
      · intro _
        rfl
      · intro _
        rfl
      · simpa using hident
    rw [hrun1]
    by_cases hmode : mode = "append"
    · have hmb : (mode == "append") = true := by simpa using hmode
      simp only [processRecordWithMatch, hfind2, hmb, if_true]
      constructor <;> trivial
    · have hmb : (mode == "append") = false := by simpa using hmode
      simp only [processRecordWithMatch, hfind2, hmb, hnil t2, Bool.false_eq_true, if_false,
        List.isEmpty_nil, if_true]
      constructor <;> trivial
  | some pair =>
    obtain ⟨m, tag⟩ := pair
    by_cases hmode : mode = "append"
    · have hmb : (mode == "append") = true := by simpa using hmode
      have hrun1 : processRecordWithMatch mode r st t1 sf1
          = (⟨"skipped", m.id, some tag, none⟩, st) := by
        simp [processRecordWithMatch, hfind, hmb]
      rw [hrun1]
      simp only [processRecordWithMatch, hfind, hmb, if_true]
      constructor <;> trivial
    · have hmb : (mode == "append") = false := by simpa using hmode
      by_cases hempty : (applyMatchDiff r t1 m).1 = []
      · have hempty2 : (applyMatchDiff r t2 m).1 = [] := hempty
        have hrun1 : processRecordWithMatch mode r st t1 sf1
            = (⟨"skipped", m.id, some tag, some []⟩, st) := by
          simp [processRecordWithMatch, hfind, hmb, hempty]
        rw [hrun1]
        simp only [processRecordWithMatch, hfind, hmb, Bool.false_eq_true, if_false, hempty2,
          List.isEmpty_nil, if_true]
        constructor <;> trivial
      · have hrun1 : processRecordWithMatch mode r st t1 sf1
            = (⟨"updated", m.id, some tag, some (applyMatchDiff r t1 m).1⟩,
               ⟨st.members.map (fun x => if x.id == m.id then (applyMatchDiff r t1 m).2 else x),
                st.nextId⟩) := by
          have hie : (applyMatchDiff r t1 m).1.isEmpty = false := by
            simpa [List.isEmpty_iff] using hempty
          simp [processRecordWithMatch, hfind, hmb, hie]
        obtain ⟨tag2, hfind2⟩ := findMatchingRecord_after_update r st.members m
          (applyMatchDiff r t1 m).2 tag hfind
          (emailNameWhere_amd r t1 m) (phoneNameWhere_amd r t1 m)
          (emailWhere_amd r t1 m) (phoneWhere_amd r t1 m)
        have hnil : (applyMatchDiff r t2 (applyMatchDiff r t1 m).2).1 = [] := by
          apply amd_fields_nil
          · intro e he hne
            exact amd_absorb_email r t1 m e he hne
          · intro p hp hne
            exact amd_absorb_phone r t1 m p hp hne
          · intro h
            exact amd_absorb_fn r t1 m h
          · intro h
            exact amd_absorb_ln r t1 m h
          · rcases hident with h | h
            · obtain ⟨e, he, hne⟩ := jsTruthy_some h
              left
              rw [amd_absorb_email r t1 m e he hne]
              simpa [jsTruthy] using hne
            · obtain ⟨p, hp, hne⟩ := jsTruthy_some h
              right
              rw [amd_absorb_phone r t1 m p hp hne]
              simpa [jsTruthy] using hne
        rw [hrun1]
        simp only [processRecordWithMatch, hfind2, hmb, Bool.false_eq_true, if_false, hnil,
          List.isEmpty_nil, if_true]
        constructor <;> trivial

/-- Counterexample to C4 as stated: (i) with a name-only row (no email, no
phone) the match-append engine creates a fresh duplicate record on the
second run too — the second run reports 1 created, 0 skipped and the store
holds two copies; (ii) the bulk engine counts the matched row of a second
run as updated (its overwrite path), not skipped, so the second run reports
1 updated rather than zero. -/
theorem C4_counterexample :
    (batchProcessWithMatch "update" [⟨"John", "Doe", none, none⟩]
        (batchProcessWithMatch "update" [⟨"John", "Doe", none, none⟩] ⟨[], 1⟩ 100 none).2
        200 none).1.created = 1
    ∧ (batchProcessWithMatch "update" [⟨"John", "Doe", none, none⟩]
        (batchProcessWithMatch "update" [⟨"John", "Doe", none, none⟩] ⟨[], 1⟩ 100 none).2
        200 none).1.skipped = 0
    ∧ (batchProcessWithMatch "update" [⟨"John", "Doe", none, none⟩]
        (batchProcessWithMatch "update" [⟨"John", "Doe", none, none⟩] ⟨[], 1⟩ 100 none).2
        200 none).2.members.length = 2
    ∧ (processRecords [⟨"John", "Doe", some "john@x.com", none⟩]
        (processRecords [⟨"John", "Doe", some "john@x.com", none⟩] ⟨[], 1⟩ 100
          (some "f.csv")).2 200 (some "f.csv")).1.updated = 1
    ∧ (processRecords [⟨"John", "Doe", some "john@x.com", none⟩]
        (processRecords [⟨"John", "Doe", some "john@x.com", none⟩] ⟨[], 1⟩ 100
          (some "f.csv")).2 200 (some "f.csv")).1.newRecords = 0 := by
  decide

/-- Witness for C4 (amended) at a concrete row with an email identifier. -/
theorem C4_row_level_idempotence_witness :
    (processRecordWithMatch "update" ⟨"John", "Doe", some "john@x.com", none⟩
        (processRecordWithMatch "update" ⟨"John", "Doe", some "john@x.com", none⟩
          ⟨[], 1⟩ 100 none).2 200 none).1.action = "skipped"
    ∧ (processRecordWithMatch "update" ⟨"John", "Doe", some "john@x.com", none⟩
        (processRecordWithMatch "update" ⟨"John", "Doe", some "john@x.com", none⟩
          ⟨[], 1⟩ 100 none).2 200 none).2
      = (processRecordWithMatch "update" ⟨"John", "Doe", some "john@x.com", none⟩
          ⟨[], 1⟩ 100 none).2 :=
  C4_row_level_idempotence "update" ⟨"John", "Doe", some "john@x.com", none⟩ ⟨[], 1⟩
    100 200 none none (Or.inl (by decide))

/-! ## C3 — refinement equivalence of the two reconciliation paths -/

theorem chunksAux_flatten (n : Nat) (hn : 0 < n) :
    ∀ (fuel : Nat) (l : List α), l.length ≤ fuel → (chunksAux n fuel l).flatten = l := by
  intro fuel
  induction fuel with
  | zero =>
    intro l hl
    have : l = [] := List.length_eq_zero.mp (Nat.le_zero.mp hl)
    subst this
    simp [chunksAux]
  | succ fuel ih =>
    intro l hl
    cases l with
    | nil => simp [chunksAux]
    | cons x xs =>
      simp only [chunksAux, List.flatten]
      rw [ih ((x :: xs).drop n) ?_]
      · exact List.take_append_drop n (x :: xs)
      · simp only [List.length_drop, List.length_cons]
        simp only [List.length_cons] at hl
        omega

theorem chunksOf_flatten (n : Nat) (hn : 0 < n) (l : List α) : (chunksOf n l).flatten = l :=
  chunksAux_flatten n hn l.length l (le_refl _)

/-- The rows `createMany` inserts, with their assigned serial ids. -/
def buildRows (rows : List ParsedRecord) (startId today : Nat) (sf : Option String) :
    List Member :=
  match rows with
  | [] => []
  | r :: rest => bulkCreateRow r startId today sf :: buildRows rest (startId + 1) today sf

theorem createMany_spec (today : Nat) (sf : Option String) :
    ∀ (rows : List ParsedRecord) (st : St),
      createMany st rows today sf
        = ⟨st.members ++ buildRows rows st.nextId today sf, st.nextId + rows.length⟩ := by
  intro rows
  induction rows with
  | nil =>
    intro st
    simp [createMany, buildRows]
  | cons r rest ih =>
    intro st
    have hstep : createMany st (r :: rest) today sf
        = createMany (bulkCreate st r today sf) rest today sf := rfl
    rw [hstep, ih]
    simp [bulkCreate, buildRows, List.append_assoc]
    omega

theorem buildRows_ids (today : Nat) (sf : Option String) :
    ∀ (rows : List ParsedRecord) (startId : Nat),
      ∀ m ∈ buildRows rows startId today sf, startId ≤ m.id := by
  intro rows
  induction rows with
  | nil => intro startId m hm; simp [buildRows] at hm
  | cons r rest ih =>
    intro startId m hm
    simp only [buildRows, List.mem_cons] at hm
    rcases hm with hm | hm
    · subst hm
      simp [bulkCreateRow]
    · have := ih (startId + 1) m hm
      omega

theorem buildRows_snoc (today : Nat) (sf : Option String) :
    ∀ (rows : List ParsedRecord) (r : ParsedRecord) (startId : Nat),
      buildRows (rows ++ [r]) startId today sf
        = buildRows rows startId today sf
          ++ [bulkCreateRow r (startId + rows.length) today sf] := by
  intro rows
  induction rows with
  | nil => intro r startId; simp [buildRows]
  | cons x rest ih =>
    intro r startId
    have harith : startId + 1 + rest.length = startId + (rest.length + 1) := by omega
    calc buildRows ((x :: rest) ++ [r]) startId today sf
        = bulkCreateRow x startId today sf
            :: buildRows (rest ++ [r]) (startId + 1) today sf := rfl
      _ = bulkCreateRow x startId today sf
            :: (buildRows rest (startId + 1) today sf
              ++ [bulkCreateRow r (startId + 1 + rest.length) today sf]) := by rw [ih]
      _ = buildRows (x :: rest) startId today sf
            ++ [bulkCreateRow r (startId + (x :: rest).length) today sf] := by
          rw [harith]
          simp [buildRows, List.length_cons]

theorem bulkUpdate_append_fresh (tid : Nat) (r : ParsedRecord) (today : Nat)
    {A B : List Member} (hB : ∀ b ∈ B, b.id ≠ tid) :
    bulkUpdate (A ++ B) tid r today = bulkUpdate A tid r today ++ B := by
  unfold bulkUpdate
  rw [List.map_append]
  congr 1
  induction B with
  | nil => rfl
  | cons b bs ih =>
    simp only [List.map_cons]
    rw [if_neg (by simpa using hB b (by simp)), ih]
    intro x hx
    exact hB x (by simp [hx])

theorem bulkUpdate_preserves_ids (tid : Nat) (r : ParsedRecord) (today : Nat)
    (ms : List Member) : (bulkUpdate ms tid r today).map Member.id = ms.map Member.id := by
  unfold bulkUpdate
  rw [List.map_map]
  apply List.map_congr_left
  intro x hx
  by_cases h : x.id = tid
  · simp [h, bulkOverwrite]
  · simp [if_neg (by simpa using h)]

theorem applyUpdateChunk_append_fresh (today : Nat) :
    ∀ (us : List (ParsedRecord × Nat)) (A B : List Member),
      (∀ u ∈ us, ∀ b ∈ B, b.id ≠ u.2) →
      applyUpdateChunk us today (A ++ B) = applyUpdateChunk us today A ++ B := by
  intro us
  induction us with
  | nil => intro A B _; rfl
  | cons u rest ih =>
    intro A B hfr
    have hstep : applyUpdateChunk (u :: rest) today (A ++ B)
        = applyUpdateChunk rest today (bulkUpdate (A ++ B) u.2 u.1 today) := rfl
    rw [hstep, bulkUpdate_append_fresh u.2 u.1 today (fun b hb => hfr u (by simp) b hb)]
    have hstep2 : applyUpdateChunk (u :: rest) today A
        = applyUpdateChunk rest today (bulkUpdate A u.2 u.1 today) := rfl
    rw [hstep2]
    exact ih _ B (fun v hv b hb => hfr v (by simp [hv]) b hb)

theorem applyUpdateChunk_snoc (today : Nat) (us : List (ParsedRecord × Nat))
    (p : ParsedRecord) (j : Nat) (ms : List Member) :
    applyUpdateChunk (us ++ [(p, j)]) today ms
      = bulkUpdate (applyUpdateChunk us today ms) j p today := by
  unfold applyUpdateChunk
  rw [List.foldl_append]
  rfl

theorem batched_update_loop (today : Nat) :
    ∀ (cs : List (List (ParsedRecord × Nat))) (res : ProcessingResult) (stx : St),
      cs.foldl (fun acc chunk =>
          ({ acc.1 with
              updated := acc.1.updated + chunk.length
              duplicates := acc.1.duplicates + chunk.length },
           { acc.2 with members := applyUpdateChunk chunk today acc.2.members }))
        (res, stx)
      = ({ res with
            updated := res.updated + cs.flatten.length
            duplicates := res.duplicates + cs.flatten.length },
         { stx with members := applyUpdateChunk cs.flatten today stx.members }) := by
  intro cs
  induction cs with
  | nil =>
    intro res stx
    cases res
    cases stx
    simp [applyUpdateChunk]
  | cons c cs ih =>
    intro res stx
    rw [List.foldl_cons, ih]
    have happ : applyUpdateChunk (c ++ cs.flatten) today stx.members
        = applyUpdateChunk cs.flatten today (applyUpdateChunk c today stx.members) := by
      unfold applyUpdateChunk
      rw [List.foldl_append]
    cases res
    cases stx
    simp [happ]
    constructor
    · omega
    · omega

theorem processBatchedRecords_normal (records : List ParsedRecord) (st : St)
    (today : Nat) (sf : Option String) :
    processBatchedRecords records st today sf
      = (⟨(classifyRecords records st.members).1.length,
          (classifyRecords records st.members).2.length,
          (classifyRecords records st.members).2.length, []⟩,
         ⟨applyUpdateChunk (classifyRecords records st.members).2 today
             (st.members ++ buildRows (classifyRecords records st.members).1 st.nextId today sf),
          st.nextId + (classifyRecords records st.members).1.length⟩) := by
  unfold processBatchedRecords
  rw [batched_update_loop, createMany_spec, chunksOf_flatten _ (by decide)]
  simp

theorem classifyRecords_snoc (rs : List ParsedRecord) (r : ParsedRecord) (A : List Member) :
    classifyRecords (rs ++ [r]) A
      = if (deduplicateRecord r A).isNew then
          ((classifyRecords rs A).1 ++ [r], (classifyRecords rs A).2)
        else ((classifyRecords rs A).1,
          (classifyRecords rs A).2 ++ [(r, (deduplicateRecord r A).audienceMemberId.getD 0)]) := by
  unfold classifyRecords
  rw [List.foldl_append]
  rfl

theorem dedup_matched_target (r : ParsedRecord) (A : List Member)
    (h : (deduplicateRecord r A).isNew = false) :
    ∃ m ∈ A, (deduplicateRecord r A).audienceMemberId.getD 0 = m.id := by
  unfold deduplicateRecord at h ⊢
  cases h1 : (if jsTruthy r.email then A.find? (emailNameWhere r) else none) with
  | some m =>
    obtain ⟨-, -, hmem⟩ := guardedFind_eq_some h1
    exact ⟨m, hmem, rfl⟩
  | none =>
    cases h2 : (if jsTruthy r.phone then A.find? (phoneNameWhere r) else none) with
    | some m =>
      obtain ⟨-, -, hmem⟩ := guardedFind_eq_some h2
      exact ⟨m, hmem, rfl⟩
    | none =>
      rw [h1, h2] at h
      simp at h

theorem classify_targets (rs : List ParsedRecord) (A : List Member) :
    ∀ u ∈ (classifyRecords rs A).2, ∃ m ∈ A, u.2 = m.id := by
  induction rs using List.reverseRecOn with
  | nil => intro u hu; simp [classifyRecords] at hu
  | append_singleton rs r ih =>
    intro u hu
    rw [classifyRecords_snoc] at hu
    cases hnew : (deduplicateRecord r A).isNew with
    | true =>
      rw [hnew] at hu
      simp only [if_true] at hu
      exact ih u hu
    | false =>
      rw [hnew] at hu
      simp only [Bool.false_eq_true, if_false] at hu
      rcases List.mem_append.mp hu with hu | hu
      · exact ih u hu
      · have hu2 : u = (r, (deduplicateRecord r A).audienceMemberId.getD 0) := by
          simpa using hu
        subst hu2
        obtain ⟨m, hm, hid⟩ := dedup_matched_target r A hnew
        exact ⟨m, hm, hid⟩

theorem processIndividualRecords_normal (today : Nat) (sf : Option String) :
    ∀ (records : List ParsedRecord) (st : St),
      (∀ m ∈ st.members, m.id < st.nextId) →
      (∀ i (hi : i < records.length),
        deduplicateRecord records[i]
            ((processIndividualRecords (records.take i) st today sf).2).members
          = deduplicateRecord records[i] st.members) →
      processIndividualRecords records st today sf
        = (⟨(classifyRecords records st.members).1.length,
            (classifyRecords records st.members).2.length,
            (classifyRecords records st.members).2.length, []⟩,
           ⟨applyUpdateChunk (classifyRecords records st.members).2 today st.members
              ++ buildRows (classifyRecords records st.members).1 st.nextId today sf,
            st.nextId + (classifyRecords records st.members).1.length⟩) := by
  intro records
  induction records using List.reverseRecOn with
  | nil =>
    intro st hfresh H
    cases st
    simp [processIndividualRecords, classifyRecords, buildRows, applyUpdateChunk]
  | append_singleton rs r ih =>
    intro st hfresh H
    have Hrs : ∀ i (hi : i < rs.length),
        deduplicateRecord rs[i]
            ((processIndividualRecords (rs.take i) st today sf).2).members
          = deduplicateRecord rs[i] st.members := by
      intro i hi
      have hlen : i < (rs ++ [r]).length := by
        simp
        omega
      have h := H i hlen
      have htake : (rs ++ [r]).take i = rs.take i := by
        rw [List.take_append_eq_append_take]
        have h0 : i - rs.length = 0 := by omega
        simp [h0]
      have hget : (rs ++ [r])[i] = rs[i] := List.getElem_append_left hi
      rw [htake, hget] at h
      exact h
    have hNF := ih st hfresh Hrs
    have hlast : deduplicateRecord r
        ((processIndividualRecords rs st today sf).2).members
        = deduplicateRecord r st.members := by
      have hlen : rs.length < (rs ++ [r]).length := by simp
      have h := H rs.length hlen
      have htake : (rs ++ [r]).take rs.length = rs := by
        rw [List.take_append_eq_append_take]
        simp
      have hget : (rs ++ [r])[rs.length] = r := by
        simp
      rw [htake, hget] at h
      exact h
    have hsplit : processIndividualRecords (rs ++ [r]) st today sf
        = indivStep today sf (processIndividualRecords rs st today sf) r := by
      unfold processIndividualRecords
      rw [List.foldl_append]
      rfl
    rw [hsplit]
    rw [hNF] at hlast ⊢
    unfold indivStep
    simp only at hlast ⊢
    rw [hlast]
    cases hnew : (deduplicateRecord r st.members).isNew with
    | true =>
      rw [classifyRecords_snoc, hnew]
      simp only [if_true]
      rw [buildRows_snoc]
      simp [bulkCreate, List.append_assoc]
      omega
    | false =>
      rw [classifyRecords_snoc, hnew]
      simp only [Bool.false_eq_true, if_false]
      obtain ⟨mt, hmt, hmtid⟩ := dedup_matched_target r st.members hnew
      have htarget_lt : (deduplicateRecord r st.members).audienceMemberId.getD 0 < st.nextId := by
        rw [hmtid]
        exact hfresh mt hmt
      have hfreshB : ∀ b ∈ buildRows (classifyRecords rs st.members).1 st.nextId today sf,
          b.id ≠ (deduplicateRecord r st.members).audienceMemberId.getD 0 := by
        intro b hb
        have := buildRows_ids today sf (classifyRecords rs st.members).1 st.nextId b hb
        omega
      rw [bulkUpdate_append_fresh _ _ _ hfreshB]
      rw [← applyUpdateChunk_snoc today _ r ((deduplicateRecord r st.members).audienceMemberId.getD 0)]
      simp

/-- Counterexample to C3 as stated: a 101-row file consisting of the same
contact repeated.  `processRecords` dispatches it to the batched path, which
dedupes every row against the *initial* (empty) store, classifies all 101 as
new and inserts 101 duplicate rows (the table has no unique constraint for
`skipDuplicates` to act on); strict row-by-row processing creates one record
and counts the remaining 100 rows as updates of it.  Final states and
summaries differ. -/
theorem C3_counterexample :
    (processRecords (List.replicate 101 ⟨"John", "Doe", some "john@x.com", none⟩)
        ⟨[], 1⟩ 0 (some "f.csv")).1.newRecords = 101
    ∧ (processIndividualRecords (List.replicate 101 ⟨"John", "Doe", some "john@x.com", none⟩)
        ⟨[], 1⟩ 0 (some "f.csv")).1.newRecords = 1
    ∧ (processIndividualRecords (List.replicate 101 ⟨"John", "Doe", some "john@x.com", none⟩)
        ⟨[], 1⟩ 0 (some "f.csv")).1.updated = 100
    ∧ (processRecords (List.replicate 101 ⟨"John", "Doe", some "john@x.com", none⟩)
        ⟨[], 1⟩ 0 (some "f.csv")).2.members.length = 101
    ∧ (processIndividualRecords (List.replicate 101 ⟨"John", "Doe", some "john@x.com", none⟩)
        ⟨[], 1⟩ 0 (some "f.csv")).2.members.length = 1 := by
  decide

/-- C3 (amended): the two-phase batched path produces exactly the same
result summary and the same final persisted state as strict row-by-row
processing, *provided no row's match outcome depends on the effects of
earlier rows of the same input* — i.e. each row dedupes identically against
the evolving store and the initial store (which fails precisely when two
rows of the file match each other, as in the counterexample).  Store ids
are assumed below the serial counter, as the persistence layer guarantees. -/
theorem C3_refinement_equivalence (records : List ParsedRecord) (st : St)
    (today : Nat) (sf : Option String)
    (hfresh : ∀ m ∈ st.members, m.id < st.nextId)
    (H : ∀ i (hi : i < records.length),
      deduplicateRecord records[i]
          ((processIndividualRecords (records.take i) st today sf).2).members
        = deduplicateRecord records[i] st.members) :
    processIndividualRecords records st today sf
      = processBatchedRecords records st today sf := by
  rw [processIndividualRecords_normal today sf records st hfresh H,
    processBatchedRecords_normal]
  have hcomm : applyUpdateChunk (classifyRecords records st.members).2 today
      (st.members ++ buildRows (classifyRecords records st.members).1 st.nextId today sf)
      = applyUpdateChunk (classifyRecords records st.members).2 today st.members
        ++ buildRows (classifyRecords records st.members).1 st.nextId today sf := by
    apply applyUpdateChunk_append_fresh
    intro u hu b hb
    obtain ⟨m, hm, hid⟩ := classify_targets records st.members u hu
    have h1 := hfresh m hm
    have h2 := buildRows_ids today sf _ st.nextId b hb
    omega
  rw [hcomm]

/-- Witness for C3 (amended): two distinct, mutually non-matching rows on an
empty store go through both paths identically. -/
theorem C3_refinement_equivalence_witness :
    processIndividualRecords [⟨"John", "Doe", some "john@x.com", none⟩,
        ⟨"Ann", "Lee", some "ann@y.com", none⟩] ⟨[], 1⟩ 0 (some "f.csv")
      = processBatchedRecords [⟨"John", "Doe", some "john@x.com", none⟩,
        ⟨"Ann", "Lee", some "ann@y.com", none⟩] ⟨[], 1⟩ 0 (some "f.csv") := by
  apply C3_refinement_equivalence
  · intro m hm
    simp at hm
  · intro i hi
    have hi2 : i < 2 := by simpa using hi
    interval_cases i <;>
      (simp only [List.getElem_cons_zero, List.getElem_cons_succ, List.take_zero,
        List.take_succ_cons]; decide)
